import Mathlib

/-!
Verification of the Ananta browser-extension data synchronization engine
(source: src/js/sync.js). The engine reconciles locally held state
(pinned shortcuts, world clocks, UI settings, plus read-only snapshots)
with a remote account store via status/push/pull round trips.

The embedding models JavaScript values as a JSON value type, localStorage
as an association list from string keys to string values (the engine uses
the localStorage fallback branch of its storage helpers; the chrome.storage
branch stores the same data under the same keys), and the network as an
abstract interface of three calls threaded through an explicit server
state. computeChecksum is modelled exactly as in the source: the SHA-256
hex digest of the UTF-8 bytes of JSON.stringify of the payload, with
SHA-256 implemented executably over Nat arithmetic mod 2^32.
-/

/- ══════════════ JSON values ══════════════ -/

/-- JSON-ish JavaScript values as produced and consumed by the engine. -/
inductive JVal where
  | null : JVal
  | bool (b : Bool) : JVal
  | num (n : Int) : JVal
  | str (s : String) : JVal
  | arr (xs : List JVal) : JVal
  | obj (fields : List (String × JVal)) : JVal

/-- JavaScript truthiness of a value. -/
def jTruthy : JVal → Bool
  | .null => false
  | .bool b => b
  | .num n => n != 0
  | .str s => s != ""
  | .arr _ => true
  | .obj _ => true

/-- Field access on an object value (undefined access yields none). -/
def objGet : JVal → String → Option JVal
  | .obj fields, key => go fields key
  | _, _ => none
where go : List (String × JVal) → String → Option JVal
  | [], _ => none
  | (k, v) :: rest, key => if k = key then some v else go rest key

/-- Minimal JSON string escaping, as JSON.stringify performs it for the
characters that can occur in the data handled here. -/
def escChar (c : Char) : String :=
  if c = '"' then "\\\""
  else if c = '\\' then "\\\\"
  else if c = '\n' then "\\n"
  else String.singleton c

def escStr (s : String) : String :=
  String.join (s.toList.map escChar)

mutual
/-- JSON.stringify: serializes a value in field insertion order (the source
performs no key canonicalization before hashing). -/
def jsonStringify : JVal → String
  | .null => "null"
  | .bool true => "true"
  | .bool false => "false"
  | .num n => toString n
  | .str s => "\"" ++ escStr s ++ "\""
  | .arr xs => "[" ++ stringifyElems xs ++ "]"
  | .obj fs => "\x7b" ++ stringifyFields fs ++ "\x7d"

def stringifyElems : List JVal → String
  | [] => ""
  | [x] => jsonStringify x
  | x :: y :: rest => jsonStringify x ++ "," ++ stringifyElems (y :: rest)

def stringifyFields : List (String × JVal) → String
  | [] => ""
  | [(k, v)] => "\"" ++ escStr k ++ "\":" ++ jsonStringify v
  | (k, v) :: y :: rest =>
      "\"" ++ escStr k ++ "\":" ++ jsonStringify v ++ "," ++ stringifyFields (y :: rest)
end

/- ══════════════ JSON parsing (JSON.parse) ══════════════ -/

def lbraceC : Char := Char.ofNat 123
def rbraceC : Char := Char.ofNat 125

/-- Body of a JSON string literal after the opening quote. -/
def parseStrBody : List Char → List Char → Option (String × List Char)
  | [], _ => none
  | '"' :: rest, acc => some (String.mk acc.reverse, rest)
  | '\\' :: c :: rest, acc =>
      if c = '"' then parseStrBody rest ('"' :: acc)
      else if c = '\\' then parseStrBody rest ('\\' :: acc)
      else if c = 'n' then parseStrBody rest ('\n' :: acc)
      else none
  | '\\' :: [], _ => none
  | c :: rest, acc => parseStrBody rest (c :: acc)

def takeDigits : List Char → (List Char × List Char)
  | [] => ([], [])
  | c :: rest =>
      if c.isDigit then
        let p := takeDigits rest
        (c :: p.1, p.2)
      else ([], c :: rest)

def digitsVal (ds : List Char) : Nat :=
  ds.foldl (fun a c => a * 10 + (c.toNat - 48)) 0

mutual
/-- Recursive-descent JSON parser (fuel-indexed so that it is structurally
recursive and kernel-evaluable). Accepts the grammar JSON.stringify emits. -/
def parseJ : Nat → List Char → Option (JVal × List Char)
  | 0, _ => none
  | fuel + 1, cs =>
    match cs with
    | 'n' :: 'u' :: 'l' :: 'l' :: rest => some (.null, rest)
    | 't' :: 'r' :: 'u' :: 'e' :: rest => some (.bool true, rest)
    | 'f' :: 'a' :: 'l' :: 's' :: 'e' :: rest => some (.bool false, rest)
    | '"' :: rest =>
        match parseStrBody rest [] with
        | some (s, rest2) => some (.str s, rest2)
        | none => none
    | '-' :: c :: rest =>
        if c.isDigit then
          let p := takeDigits (c :: rest)
          some (.num (-(Int.ofNat (digitsVal p.1))), p.2)
        else none
    | '[' :: rest =>
        match rest with
        | ']' :: rest2 => some (.arr [], rest2)
        | _ =>
          match parseElems fuel rest with
          | some (vs, rest2) => some (.arr vs, rest2)
          | none => none
    | c :: rest =>
        if c = lbraceC then
          match rest with
          | [] => none
          | r :: rest2 =>
            if r = rbraceC then some (.obj [], rest2)
            else
              match parseFields fuel (r :: rest2) with
              | some (fs, rest3) => some (.obj fs, rest3)
              | none => none
        else if c.isDigit then
          let p := takeDigits (c :: rest)
          some (.num (Int.ofNat (digitsVal p.1)), p.2)
        else none
    | [] => none

def parseElems : Nat → List Char → Option (List JVal × List Char)
  | 0, _ => none
  | fuel + 1, cs =>
    match parseJ fuel cs with
    | none => none
    | some (v, rest) =>
      match rest with
      | ',' :: rest2 =>
          match parseElems fuel rest2 with
          | some (vs, rest3) => some (v :: vs, rest3)
          | none => none
      | ']' :: rest2 => some ([v], rest2)
      | _ => none

def parseFields : Nat → List Char → Option (List (String × JVal) × List Char)
  | 0, _ => none
  | fuel + 1, cs =>
    match cs with
    | '"' :: rest =>
      match parseStrBody rest [] with
      | none => none
      | some (key, rest2) =>
        match rest2 with
        | ':' :: rest3 =>
          match parseJ fuel rest3 with
          | none => none
          | some (v, rest4) =>
            match rest4 with
            | ',' :: rest5 =>
                match parseFields fuel rest5 with
                | some (fs, rest6) => some ((key, v) :: fs, rest6)
                | none => none
            | r :: rest5 =>
                if r = rbraceC then some ([(key, v)], rest5) else none
            | [] => none
        | _ => none
    | _ => none
end

/-- JSON.parse of a whole string; none models a thrown SyntaxError. -/
def jsonParse (s : String) : Option JVal :=
  match parseJ (2 * s.length + 4) s.toList with
  | some (v, []) => some v
  | _ => none

/- ══════════════ SHA-256 (crypto.subtle.digest) ══════════════ -/

def M32 : Nat := 4294967296

def rotr32 (x n : Nat) : Nat :=
  ((x >>> n) ||| (x <<< (32 - n))) % M32

/-- The 64 SHA-256 round constants, as decimal Nat literals. -/
def sha256K : List Nat := [
  1116352408, 1899447441, 3049323471, 3921009573, 961987163,
  1508970993, 2453635748, 2870763221, 3624381080, 310598401,
  607225278, 1426881987, 1925078388, 2162078206, 2614888103,
  3248222580, 3835390401, 4022224774, 264347078, 604807628,
  770255983, 1249150122, 1555081692, 1996064986, 2554220882,
  2821834349, 2952996808, 3210313671, 3336571891, 3584528711,
  113926993, 338241895, 666307205, 773529912, 1294757372,
  1396182291, 1695183700, 1986661051, 2177026350, 2456956037,
  2730485921, 2820302411, 3259730800, 3345764771, 3516065817,
  3600352804, 4094571909, 275423344, 430227734, 506948616,
  659060556, 883997877, 958139571, 1322822218, 1537002063,
  1747873779, 1955562222, 2024104815, 2227730452, 2361852424,
  2428436474, 2756734187, 3204031479, 3329325298]

/-- The eight SHA-256 initial hash words, as decimal Nat literals. -/
def sha256H0 : List Nat := [
  1779033703, 3144134277, 1013904242, 2773480762, 1359893119,
  2600822924, 528734635, 1541459225]

def natBytesBE (k : Nat) (n : Nat) : List Nat :=
  (List.range k).reverse.map (fun i => (n >>> (8 * i)) % 256)

def sha256Pad (msg : List Nat) : List Nat :=
  let len := msg.length
  let z := (119 - len % 64) % 64
  msg ++ [0x80] ++ List.replicate z 0 ++ natBytesBE 8 (len * 8)

def bytesToWords : List Nat → List Nat
  | a :: b :: c :: d :: rest => (((a * 256 + b) * 256 + c) * 256 + d) :: bytesToWords rest
  | _ => []

def smallSig0 (x : Nat) : Nat := (rotr32 x 7) ^^^ (rotr32 x 18) ^^^ (x >>> 3)
def smallSig1 (x : Nat) : Nat := (rotr32 x 17) ^^^ (rotr32 x 19) ^^^ (x >>> 10)
def bigSig0 (x : Nat) : Nat := (rotr32 x 2) ^^^ (rotr32 x 13) ^^^ (rotr32 x 22)
def bigSig1 (x : Nat) : Nat := (rotr32 x 6) ^^^ (rotr32 x 11) ^^^ (rotr32 x 25)

def extendSchedule (w : List Nat) : List Nat :=
  (List.range 48).foldl
    (fun w _ =>
      let i := w.length
      w ++ [(w.getD (i - 16) 0 + smallSig0 (w.getD (i - 15) 0) +
             w.getD (i - 7) 0 + smallSig1 (w.getD (i - 2) 0)) % M32])
    w

structure Hash8 where
  a : Nat
  b : Nat
  c : Nat
  d : Nat
  e : Nat
  f : Nat
  g : Nat
  h : Nat

def sha256Round (st : Hash8) (kw : Nat × Nat) : Hash8 :=
  let t1 := (st.h + bigSig1 st.e + ((st.e &&& st.f) ^^^ ((st.e ^^^ (M32 - 1)) &&& st.g)) +
             kw.1 + kw.2) % M32
  let t2 := (bigSig0 st.a + ((st.a &&& st.b) ^^^ (st.a &&& st.c) ^^^ (st.b &&& st.c))) % M32
  ⟨(t1 + t2) % M32, st.a, st.b, st.c, (st.d + t1) % M32, st.e, st.f, st.g⟩

def sha256Block (hs : List Nat) (block : List Nat) : List Nat :=
  let w := extendSchedule block
  let st0 : Hash8 := ⟨hs.getD 0 0, hs.getD 1 0, hs.getD 2 0, hs.getD 3 0,
                      hs.getD 4 0, hs.getD 5 0, hs.getD 6 0, hs.getD 7 0⟩
  let st := (sha256K.zip w).foldl sha256Round st0
  [(hs.getD 0 0 + st.a) % M32, (hs.getD 1 0 + st.b) % M32, (hs.getD 2 0 + st.c) % M32,
   (hs.getD 3 0 + st.d) % M32, (hs.getD 4 0 + st.e) % M32, (hs.getD 5 0 + st.f) % M32,
   (hs.getD 6 0 + st.g) % M32, (hs.getD 7 0 + st.h) % M32]

def sha256Blocks : Nat → List Nat → List Nat → List Nat
  | 0, hs, _ => hs
  | _, hs, [] => hs
  | fuel + 1, hs, w :: ws =>
      sha256Blocks fuel (sha256Block hs (w :: ws.take 15)) (ws.drop 15)

def hexDigit (n : Nat) : Char :=
  "0123456789abcdef".toList.getD n '0'

def wordHex (w : Nat) : String :=
  String.mk ((List.range 8).reverse.map (fun i => hexDigit ((w >>> (4 * i)) % 16)))

def sha256Hex (msg : List Nat) : String :=
  String.join ((let ws := bytesToWords (sha256Pad msg)
                sha256Blocks ws.length sha256H0 ws).map wordHex)

/-- UTF-8 bytes of a string (TextEncoder().encode). -/
def utf8Char (c : Char) : List Nat :=
  let n := c.toNat
  if n < 0x80 then [n]
  else if n < 0x800 then [0xC0 ||| (n >>> 6), 0x80 ||| (n &&& 0x3F)]
  else if n < 0x10000 then
    [0xE0 ||| (n >>> 12), 0x80 ||| ((n >>> 6) &&& 0x3F), 0x80 ||| (n &&& 0x3F)]
  else
    [0xF0 ||| (n >>> 18), 0x80 ||| ((n >>> 12) &&& 0x3F),
     0x80 ||| ((n >>> 6) &&& 0x3F), 0x80 ||| (n &&& 0x3F)]

def utf8Bytes (s : String) : List Nat :=
  (s.toList.map utf8Char).flatten

/-- computeChecksum from src/js/sync.js: hex SHA-256 digest of the UTF-8
encoding of JSON.stringify of the payload. -/
def computeChecksum (data : JVal) : String :=
  sha256Hex (utf8Bytes (jsonStringify data))

/- ══════════════ localStorage model ══════════════ -/

/-- localStorage: string keys mapped to string values. -/
abbrev Store := List (String × String)

def sGet {α : Type} : List (String × α) → String → Option α
  | [], _ => none
  | (k, v) :: rest, key => if k = key then some v else sGet rest key

def sSet {α : Type} : List (String × α) → String → α → List (String × α)
  | [], key, v => [(key, v)]
  | (k, w) :: rest, key, v =>
      if k = key then (k, v) :: rest else (k, w) :: sSet rest key v

def sDel {α : Type} : List (String × α) → String → List (String × α)
  | [], _ => []
  | (k, w) :: rest, key =>
      if k = key then sDel rest key else (k, w) :: sDel rest key

def getItem (store : Store) (key : String) : Option String := sGet store key
def setItem (store : Store) (key : String) (v : String) : Store := sSet store key v
def removeItem (store : Store) (key : String) : Store := sDel store key

mutual
/-- String coercion localStorage.setItem applies to non-string values. -/
def jsToString : JVal → String
  | .null => "null"
  | .bool true => "true"
  | .bool false => "false"
  | .num n => toString n
  | .str s => s
  | .arr xs => jsToStringList xs
  | .obj _ => "[object Object]"

def jsToStringList : List JVal → String
  | [] => ""
  | [x] => jsToString x
  | x :: y :: rest => jsToString x ++ "," ++ jsToStringList (y :: rest)
end

namespace AnantaSync

def AUTH_KEY : String := "anantaAuth"
def META_KEY : String := "anantaSyncMeta"

def ALL_DATA_TYPES : List String :=
  ["pinned_apps", "world_clocks", "settings", "bookmarks", "history",
   "top_sites", "device_info"]

def LOCAL_STORABLE : List String := ["pinned_apps", "world_clocks", "settings"]

/-- Ambient browser environment of one run: the durable localStorage, the
values the read-only collectors would resolve (none models an unavailable
capability, for which the collector resolves null), the device-info
fingerprint collectDeviceInfo assembles from navigator and screen, the
detected browser type, and the UUID crypto.randomUUID would mint. -/
structure Env where
  store : Store
  bookmarks : Option JVal
  browsingHistory : Option JVal
  topSites : Option JVal
  deviceInfo : JVal
  browserType : String
  freshId : String

/-- getAuth, localStorage branch: JSON.parse of the stored auth record,
null on parse failure or falsy content. -/
def getAuth (store : Store) : Option JVal :=
  match getItem store AUTH_KEY with
  | none => none
  | some s =>
    match jsonParse s with
    | some v => if jTruthy v then some v else none
    | none => none

/-- Truthiness of auth?.accessToken, the guard of every operation. -/
def hasToken (store : Store) : Bool :=
  match getAuth store with
  | some a =>
    match objGet a "accessToken" with
    | some v => jTruthy v
    | none => false
  | none => false

/-- getDeviceId, localStorage branch: reuse the stored id, otherwise mint
and persist freshId. -/
def getDeviceId (store : Store) (freshId : String) : String × Store :=
  match getItem store "anantaDeviceId" with
  | some id => if id = "" then (freshId, setItem store "anantaDeviceId" freshId) else (id, store)
  | none => (freshId, setItem store "anantaDeviceId" freshId)

/-- The sync metadata record, as the fields of the JSON object stored
under META_KEY. -/
abbrev Meta := List (String × JVal)

/-- getSyncMeta, localStorage branch: JSON.parse of the stored record,
empty on absence or parse failure. -/
def getSyncMeta (store : Store) : Meta :=
  match getItem store META_KEY with
  | none => []
  | some s =>
    match jsonParse s with
    | some (.obj fs) => fs
    | _ => []

/-- saveSyncMeta, localStorage branch. -/
def saveSyncMeta (store : Store) (meta : Meta) : Store :=
  setItem store META_KEY (jsonStringify (.obj meta))

/-- A metadata entry as smartSync writes it. -/
def metaVC (version : Int) (checksum : String) : JVal :=
  .obj [("version", .num version), ("checksum", .str checksum)]

def metaSetVC (meta : Meta) (dt : String) (version : Int) (checksum : String) : Meta :=
  sSet meta dt (metaVC version checksum)

/-- meta[dt].checksum as compared by === against a string checksum. -/
def knownChecksum (meta : Meta) (dt : String) : Option String :=
  match sGet meta dt with
  | some v =>
    match objGet v "checksum" with
    | some (.str s) => some s
    | _ => none
  | none => none

/-- Truthiness of meta[dt]. -/
def metaTruthy (meta : Meta) (dt : String) : Bool :=
  match sGet meta dt with
  | some v => jTruthy v
  | none => false

/-- meta[dt]?.version || 0, as the standalone push uses for baseVersion. -/
def metaVersion (meta : Meta) (dt : String) : Int :=
  match sGet meta dt with
  | some v =>
    match objGet v "version" with
    | some (.num n) => n
    | _ => 0
  | none => 0

/-- One collected data item. -/
structure LocalItem where
  dataType : String
  data : JVal

/-- collectLocalStorageData: mirrored categories read from localStorage.
pinned_apps and world_clocks are emitted only when present and parseable;
the settings item is always emitted, with defaulted fields. -/
def collectLocalStorageData (store : Store) : List LocalItem :=
  let p1 :=
    match getItem store "pinnedApps" with
    | some raw =>
      if raw = "" then []
      else
        match jsonParse raw with
        | some v => [⟨"pinned_apps", v⟩]
        | none => []
    | none => []
  let p2 :=
    match getItem store "worldClocks" with
    | some raw =>
      if raw = "" then []
      else
        match jsonParse raw with
        | some v => [⟨"world_clocks", v⟩]
        | none => []
    | none => []
  let fmt :=
    match getItem store "ananta-fmt-24h" with
    | some s => if s = "" then "0" else s
    | none => "0"
  let sel : JVal :=
    match getItem store "selectedBookmarkFolder" with
    | some s => if s = "" then JVal.null else JVal.str s
    | none => JVal.null
  let openF : JVal :=
    match getItem store "openBookmarkFolders" with
    | none => JVal.null
    | some s =>
      match jsonParse s with
      | some v => v
      | none => JVal.null
  p1 ++ p2 ++
    [⟨"settings", .obj [("fmt24h", .str fmt), ("selectedBookmarkFolder", sel),
                        ("openBookmarkFolders", openF)]⟩]

/-- The full snapshot smartSync and push gather: mirrored categories, the
three read-only collectors when they resolve a truthy value, and always a
fresh device_info item. -/
def collectAllLocal (env : Env) (store : Store) : List LocalItem :=
  collectLocalStorageData store
  ++ (match env.bookmarks with
      | some v => if jTruthy v then [⟨"bookmarks", v⟩] else []
      | none => [])
  ++ (match env.browsingHistory with
      | some v => if jTruthy v then [⟨"history", v⟩] else []
      | none => [])
  ++ (match env.topSites with
      | some v => if jTruthy v then [⟨"top_sites", v⟩] else []
      | none => [])
  ++ [⟨"device_info", env.deviceInfo⟩]

/-- clearLocal: remove the localStorage keys of one mirrored category. -/
def clearLocal (dataType : String) (store : Store) : Store :=
  if dataType = "pinned_apps" then removeItem store "pinnedApps"
  else if dataType = "world_clocks" then removeItem store "worldClocks"
  else if dataType = "settings" then
    removeItem (removeItem (removeItem store "ananta-fmt-24h")
      "selectedBookmarkFolder") "openBookmarkFolders"
  else store

/-- The settings case of applyToLocal: clear the three keys, then set each
field that is neither null nor undefined. -/
def applySettingsLocal (data : JVal) (store : Store) : Store :=
  let store := removeItem (removeItem (removeItem store "ananta-fmt-24h")
    "selectedBookmarkFolder") "openBookmarkFolders"
  if jTruthy data then
    let store :=
      match objGet data "fmt24h" with
      | some .null => store
      | some v => setItem store "ananta-fmt-24h" (jsToString v)
      | none => store
    let store :=
      match objGet data "selectedBookmarkFolder" with
      | some .null => store
      | some v => setItem store "selectedBookmarkFolder" (jsToString v)
      | none => store
    match objGet data "openBookmarkFolders" with
    | some .null => store
    | some v => setItem store "openBookmarkFolders" (jsonStringify v)
    | none => store
  else store

/-- applyToLocal: overwrite the localStorage keys of one mirrored category
with a pulled payload. -/
def applyToLocal (dataType : String) (data : JVal) (store : Store) : Store :=
  if dataType = "pinned_apps" then setItem store "pinnedApps" (jsonStringify data)
  else if dataType = "world_clocks" then setItem store "worldClocks" (jsonStringify data)
  else if dataType = "settings" then applySettingsLocal data store
  else store

/- ══════════════ network interface ══════════════ -/

/-- One entry of a status response. -/
structure StatusItem where
  dataType : String
  checksum : String
  syncVersion : Int

/-- One item of a push request body. -/
structure PushItem where
  dataType : String
  data : JVal
  checksum : String
  baseVersion : Int

/-- A push request body. -/
structure PushBody where
  browserType : String
  deviceId : String
  items : List PushItem

/-- One entry of a push response. -/
structure PushResult where
  dataType : String
  status : String
  syncVersion : Int
  checksum : String
  serverData : Option JVal

/-- One entry of a pull response. -/
structure PullItem where
  dataType : String
  data : JVal
  syncVersion : Int

/-- The three authenticated API calls, threaded through a server state σ.
none models a NetworkOrServerError: a non-success response or a response
body that fails to parse, which the api helper raises as an exception. -/
structure Net (σ : Type) where
  statusCall : σ → String → List String → Option (σ × List StatusItem)
  pushCall : σ → PushBody → Option (σ × List PushResult)
  pullCall : σ → String → List String → Option (σ × List PullItem)

inductive SyncErr where
  | notAuth : SyncErr
  | netFail : SyncErr
  deriving DecidableEq

/-- Outcome of one engine operation: the final localStorage, the final
server state, and the operation value, or the localStorage and server
state at the moment an exception aborted the run. -/
inductive OpOutcome (σ : Type) (α : Type) where
  | ok (store : Store) (srv : σ) (val : α)
  | err (e : SyncErr) (store : Store) (srv : σ)

/-- The summary smartSync returns. -/
structure SyncResults where
  pushed : List String
  pulled : List String
  conflicts : List String
  unchanged : List String
  deriving DecidableEq

/- ══════════════ smartSync phases (src/js/sync.js lines 301-453) ══════════════ -/

/-- localMap value: the collected payload and its computed checksum. -/
structure LocalEntry where
  data : JVal
  checksum : String

abbrev LMap := List (String × LocalEntry)
abbrev SMap := List (String × StatusItem)

/-- The localMap object: dataType keyed, insertion ordered. -/
def buildLocalMap (items : List LocalItem) : LMap :=
  items.foldl (fun m it => sSet m it.dataType ⟨it.data, computeChecksum it.data⟩) []

/-- The serverMap object built from the status response items. -/
def buildServerMap (items : List StatusItem) : SMap :=
  items.foldl (fun m s => sSet m s.dataType s) []

/-- An entry queued for the batched push. -/
structure PushReq where
  dataType : String
  data : JVal
  baseVersion : Int

/-- Output of the per-category classification loop. -/
structure Classified where
  toPush : List PushReq
  unchanged : List String
  meta : Meta

/-- The classification loop over Object.keys(localMap): device_info is
always pushed with the server version (or 0) as base; a category with no
server record is pushed with baseVersion 0; equal local and server
checksums mark the category unchanged and set its metadata to the server
pair; otherwise the category is pushed exactly when its local checksum
differs from the last known checksum. -/
def classify : LMap → SMap → Meta → Classified
  | [], _, meta => ⟨[], [], meta⟩
  | (dt, le) :: rest, serverMap, meta =>
    if dt = "device_info" then
      let bv :=
        match sGet serverMap dt with
        | some s => s.syncVersion
        | none => 0
      let c := classify rest serverMap meta
      ⟨⟨dt, le.data, bv⟩ :: c.toPush, c.unchanged, c.meta⟩
    else
      match sGet serverMap dt with
      | none =>
        let c := classify rest serverMap meta
        ⟨⟨dt, le.data, 0⟩ :: c.toPush, c.unchanged, c.meta⟩
      | some s =>
        if le.checksum = s.checksum then
          let c := classify rest serverMap (metaSetVC meta dt s.syncVersion le.checksum)
          ⟨c.toPush, dt :: c.unchanged, c.meta⟩
        else if knownChecksum meta dt ≠ some le.checksum then
          let c := classify rest serverMap meta
          ⟨⟨dt, le.data, s.syncVersion⟩ :: c.toPush, c.unchanged, c.meta⟩
        else
          classify rest serverMap meta

/-- The wire items of the batched push call, checksums recomputed. -/
def mkPushItems (reqs : List PushReq) : List PushItem :=
  reqs.map (fun p => ⟨p.dataType, p.data, computeChecksum p.data, p.baseVersion⟩)

/-- State after processing the push response. -/
structure PushProcessed where
  meta : Meta
  pushed : List String
  conflicts : List String
  unchanged : List String

/-- The push-response loop: every result updates metadata to the returned
(version, checksum); conflict, updated/created and unchanged statuses are
recorded in the respective summary lists. No localStorage write happens
here. -/
def processPushResults : List PushResult → Meta → List String → List String → List String → PushProcessed
  | [], meta, pushed, conflicts, unchanged => ⟨meta, pushed, conflicts, unchanged⟩
  | r :: rest, meta, pushed, conflicts, unchanged =>
    let meta := metaSetVC meta r.dataType r.syncVersion r.checksum
    if r.status = "conflict" then
      processPushResults rest meta pushed (conflicts ++ [r.dataType]) unchanged
    else if r.status = "updated" ∨ r.status = "created" then
      processPushResults rest meta (pushed ++ [r.dataType]) conflicts unchanged
    else if r.status = "unchanged" then
      processPushResults rest meta pushed conflicts (unchanged ++ [r.dataType])
    else
      processPushResults rest meta pushed conflicts unchanged

/-- The pull set: mirrored categories that are on the server and not in
the unchanged list, then every server category that is absent locally,
other than device_info, deduplicated. -/
def buildToPull (unchanged : List String) (serverMap : SMap) (localMap : LMap) : List String :=
  let l1 := LOCAL_STORABLE.filter
    (fun dt => ¬ unchanged.contains dt ∧ (sGet serverMap dt).isSome)
  (serverMap.map Prod.fst).foldl
    (fun acc dt =>
      if (sGet localMap dt).isNone ∧ dt ≠ "device_info" ∧ ¬ acc.contains dt then
        acc ++ [dt]
      else acc)
    l1

/-- State after processing pull items (also used by the standalone pull). -/
structure PullProcessed where
  store : Store
  meta : Meta
  pulled : List String

/-- The pull-response loop: mirrored items are applied to localStorage,
metadata is set to (returned version, checksum of the received payload),
and the category is recorded once under pulled. -/
def processPullItems : List PullItem → Store → Meta → List String → PullProcessed
  | [], store, meta, pulled => ⟨store, meta, pulled⟩
  | it :: rest, store, meta, pulled =>
    let store :=
      if LOCAL_STORABLE.contains it.dataType then applyToLocal it.dataType it.data store
      else store
    let meta := metaSetVC meta it.dataType it.syncVersion (computeChecksum it.data)
    let pulled := if pulled.contains it.dataType then pulled else pulled ++ [it.dataType]
    processPullItems rest store meta pulled

/-- The tombstone sweep: every mirrored category with a truthy metadata
entry and no record in the status response is cleared locally, its
metadata entry deleted, and the category recorded under pulled. -/
def tombstoneSweep : List String → SMap → Store → Meta → List String → PullProcessed
  | [], _, store, meta, pulled => ⟨store, meta, pulled⟩
  | dt :: rest, serverMap, store, meta, pulled =>
    if metaTruthy meta dt ∧ (sGet serverMap dt).isNone then
      let store := clearLocal dt store
      let meta := sDel meta dt
      let pulled := if pulled.contains dt then pulled else pulled ++ [dt]
      tombstoneSweep rest serverMap store meta pulled
    else
      tombstoneSweep rest serverMap store meta pulled

/-- Pull phase, tombstone sweep and final metadata persist of smartSync. -/
def finishSync {σ : Type} (env : Env) (net : Net σ) (store : Store) (srv : σ)
    (localMap : LMap) (serverMap : SMap) (meta : Meta)
    (pushed conflicts unchanged : List String) : OpOutcome σ SyncResults :=
  let toPull := buildToPull unchanged serverMap localMap
  if toPull.isEmpty then
    let t := tombstoneSweep LOCAL_STORABLE serverMap store meta []
    .ok (saveSyncMeta t.store t.meta) srv ⟨pushed, t.pulled, conflicts, unchanged⟩
  else
    match net.pullCall srv env.browserType toPull with
    | none => .err .netFail store srv
    | some (srv1, items) =>
      let q := processPullItems items store meta []
      let t := tombstoneSweep LOCAL_STORABLE serverMap q.store q.meta q.pulled
      .ok (saveSyncMeta t.store t.meta) srv1 ⟨pushed, t.pulled, conflicts, unchanged⟩

/-- smartSync: authenticate, snapshot local data with checksums, probe
status once, classify, push at most once, pull at most once, sweep
tombstones, persist the metadata once at the very end, and return the
summary. An err outcome carries the state at the moment the run aborted. -/
def smartSync {σ : Type} (env : Env) (net : Net σ) (srv : σ) : OpOutcome σ SyncResults :=
  if hasToken env.store then
    let d := getDeviceId env.store env.freshId
    let store := d.2
    let meta0 := getSyncMeta store
    let localMap := buildLocalMap (collectAllLocal env store)
    match net.statusCall srv env.browserType ALL_DATA_TYPES with
    | none => .err .netFail store srv
    | some (srv1, serverItems) =>
      let serverMap := buildServerMap serverItems
      let c := classify localMap serverMap meta0
      if c.toPush.isEmpty then
        finishSync env net store srv1 localMap serverMap c.meta [] [] c.unchanged
      else
        match net.pushCall srv1 ⟨env.browserType, d.1, mkPushItems c.toPush⟩ with
        | none => .err .netFail store srv1
        | some (srv2, pres) =>
          let p := processPushResults pres c.meta [] [] c.unchanged
          finishSync env net store srv2 localMap serverMap p.meta p.pushed p.conflicts p.unchanged
  else .err .notAuth env.store srv

/- ══════════════ standalone push / pull / status (lines 455-550) ══════════════ -/

/-- The per-result loop of the standalone push: record returned versions
into metadata when truthy, and on a conflict carrying truthy serverData
for a mirrored category, immediately overwrite local storage with the
server payload (server-wins). -/
def pushOpProcess : List PushResult → Store → Meta → Store × Meta
  | [], store, meta => (store, meta)
  | r :: rest, store, meta =>
    let meta := if r.syncVersion ≠ 0 then metaSetVC meta r.dataType r.syncVersion r.checksum else meta
    let store :=
      match r.serverData with
      | some sd =>
        if r.status = "conflict" ∧ jTruthy sd ∧ LOCAL_STORABLE.contains r.dataType then
          applyToLocal r.dataType sd store
        else store
      | none => store
    pushOpProcess rest store meta

/-- The standalone push operation: collect everything, push with base
versions from stored metadata, apply conflict payloads, persist metadata. -/
def push {σ : Type} (env : Env) (net : Net σ) (srv : σ) : OpOutcome σ (List PushResult) :=
  if hasToken env.store then
    let d := getDeviceId env.store env.freshId
    let store := d.2
    let meta0 := getSyncMeta store
    let items := collectAllLocal env store
    let withVersions : List PushItem := items.map
      (fun it => ⟨it.dataType, it.data, computeChecksum it.data, metaVersion meta0 it.dataType⟩)
    match net.pushCall srv ⟨env.browserType, d.1, withVersions⟩ with
    | none => .err .netFail store srv
    | some (srv1, rs) =>
      let pr := pushOpProcess rs store meta0
      .ok (saveSyncMeta pr.1 pr.2) srv1 rs
  else .err .notAuth env.store srv

/-- The tombstone loop of the standalone pull: clear every mirrored
category with a truthy metadata entry that was not among the pulled
types. -/
def pullOpTomb : List String → Store → Meta → List String → Store × Meta
  | [], store, meta, _ => (store, meta)
  | dt :: rest, store, meta, pulledTypes =>
    if metaTruthy meta dt ∧ ¬ pulledTypes.contains dt then
      pullOpTomb rest (clearLocal dt store) (sDel meta dt) pulledTypes
    else
      pullOpTomb rest store meta pulledTypes

/-- The standalone pull operation: fetch every category, apply mirrored
items, update metadata, clear mirrored categories missing from the
response, persist metadata. -/
def pull {σ : Type} (env : Env) (net : Net σ) (srv : σ) : OpOutcome σ (List PullItem) :=
  if hasToken env.store then
    let meta0 := getSyncMeta env.store
    match net.pullCall srv env.browserType ALL_DATA_TYPES with
    | none => .err .netFail env.store srv
    | some (srv1, items) =>
      let q := processPullItems items env.store meta0 []
      let t := pullOpTomb LOCAL_STORABLE q.store q.meta q.pulled
      .ok (saveSyncMeta t.1 t.2) srv1 items
  else .err .notAuth env.store srv

/-- The status operation: resolves null (none) without any call when no
token is stored, otherwise performs the status round trip. -/
def status {σ : Type} (env : Env) (net : Net σ) (srv : σ) : OpOutcome σ (Option (List StatusItem)) :=
  if hasToken env.store then
    match net.statusCall srv env.browserType [] with
    | none => .err .netFail env.store srv
    | some (srv1, items) => .ok env.store srv1 (some items)
  else .ok env.store srv none

/-- The localStorage keys belonging to one category. -/
def categoryKeys (dataType : String) : List String :=
  if dataType = "pinned_apps" then ["pinnedApps"]
  else if dataType = "world_clocks" then ["worldClocks"]
  else if dataType = "settings" then
    ["ananta-fmt-24h", "selectedBookmarkFolder", "openBookmarkFolders"]
  else []

/-- The settings payload emitted when none of the settings keys exist. -/
def defaultSettings : JVal :=
  .obj [("fmt24h", .str "0"), ("selectedBookmarkFolder", .null),
        ("openBookmarkFolders", .null)]

end AnantaSync

/- ══════════════ spec-modelled remote server ══════════════ -/

namespace SpecServer

/-- Modelled from the spec: a ServerRecord of the remote collaborator,
per category: checksum, monotone syncVersion, and the stored payload
(spec sections 3 and 4.4). The server itself is not part of this
repository; only its interface is specified. -/
structure SrvRec where
  checksum : String
  syncVersion : Int
  payload : JVal

abbrev SrvState := List (String × SrvRec)

/-- Modelled from the spec: status returns (category, checksum,
syncVersion) for every category known server-side; absent categories are
simply missing from the response (spec section 4.4). -/
def srvStatus (s : SrvState) : List AnantaSync.StatusItem :=
  s.map (fun p => ⟨p.1, p.2.checksum, p.2.syncVersion⟩)

/-- Modelled from the spec: one pushed item creates the record at version
1 when the category is unknown; with a record present, a baseVersion that
differs from the current syncVersion is a conflict carrying the server
payload; an identical checksum is reported unchanged; otherwise the
record is replaced and the version incremented (spec sections 3, 4.4). -/
def srvPushOne (s : SrvState) (it : AnantaSync.PushItem) : SrvState × AnantaSync.PushResult :=
  match sGet s it.dataType with
  | none =>
      (sSet s it.dataType ⟨it.checksum, 1, it.data⟩,
       ⟨it.dataType, "created", 1, it.checksum, none⟩)
  | some r =>
      if it.baseVersion ≠ r.syncVersion then
        (s, ⟨it.dataType, "conflict", r.syncVersion, r.checksum, some r.payload⟩)
      else if it.checksum = r.checksum then
        (s, ⟨it.dataType, "unchanged", r.syncVersion, r.checksum, none⟩)
      else
        (sSet s it.dataType ⟨it.checksum, r.syncVersion + 1, it.data⟩,
         ⟨it.dataType, "updated", r.syncVersion + 1, it.checksum, none⟩)

/-- Modelled from the spec: a batched push processes its items in order. -/
def srvPush (s : SrvState) : List AnantaSync.PushItem → SrvState × List AnantaSync.PushResult
  | [] => (s, [])
  | it :: rest =>
    let p := srvPushOne s it
    let q := srvPush p.1 rest
    (q.1, p.2 :: q.2)

/-- Modelled from the spec: pull returns payload and version for each
requested category present server-side (spec section 4.4). -/
def srvPull (s : SrvState) (cats : List String) : List AnantaSync.PullItem :=
  cats.filterMap (fun dt => (sGet s dt).map (fun r => ⟨dt, r.payload, r.syncVersion⟩))

/-- The spec-modelled server wired up as a network interface. -/
def specNet : AnantaSync.Net SrvState where
  statusCall := fun s _ _ => some (s, srvStatus s)
  pushCall := fun s body => some (srvPush s body.items)
  pullCall := fun s _ cats => some (s, srvPull s cats)

end SpecServer

/- ══════════════ scripted and recording networks (test harness) ══════════════ -/

/-- A network that answers the three calls with fixed responses. -/
def scriptNet (st : List AnantaSync.StatusItem) (pu : List AnantaSync.PushResult)
    (pl : List AnantaSync.PullItem) : AnantaSync.Net Unit where
  statusCall := fun _ _ _ => some ((), st)
  pushCall := fun _ _ => some ((), pu)
  pullCall := fun _ _ _ => some ((), pl)

/-- Like scriptNet but the pull call fails (non-success response). -/
def scriptNetPullFail (st : List AnantaSync.StatusItem)
    (pu : List AnantaSync.PushResult) : AnantaSync.Net Unit where
  statusCall := fun _ _ _ => some ((), st)
  pushCall := fun _ _ => some ((), pu)
  pullCall := fun _ _ _ => none

/-- Wrap a network so that the category list of every pull request is
recorded in the threaded state. -/
def recordingNet {σ : Type} (net : AnantaSync.Net σ) :
    AnantaSync.Net (σ × List (List String)) where
  statusCall := fun s bt cats =>
    (net.statusCall s.1 bt cats).map (fun p => ((p.1, s.2), p.2))
  pushCall := fun s body =>
    (net.pushCall s.1 body).map (fun p => ((p.1, s.2), p.2))
  pullCall := fun s bt cats =>
    (net.pullCall s.1 bt cats).map (fun p => ((p.1, s.2 ++ [cats]), p.2))


/- ══════════════ run-stage observation points ══════════════ -/

namespace AnantaSync

/-- The store after the getDeviceId step of a run. -/
def runStore1 (env : Env) : Store := (getDeviceId env.store env.freshId).2

/-- The localMap a run builds. -/
def runLocalMap (env : Env) : LMap := buildLocalMap (collectAllLocal env (runStore1 env))

/-- The classification a run performs against a given status response. -/
def runClassified (env : Env) (st : List StatusItem) : Classified :=
  classify (runLocalMap env) (buildServerMap st) (getSyncMeta (runStore1 env))

/-- The items of the push request a run issues (empty when no push call
is made). -/
def runPushRequest (env : Env) (st : List StatusItem) : List PushItem :=
  mkPushItems (runClassified env st).toPush

/-- The summary state after the push phase, given the push response. -/
def runAfterPush (env : Env) (st : List StatusItem) (pu : List PushResult) : PushProcessed :=
  let c := runClassified env st
  if c.toPush.isEmpty then ⟨c.meta, [], [], c.unchanged⟩
  else processPushResults pu c.meta [] [] c.unchanged

/-- The categories of the pull request a run issues (empty when no pull
call is made). -/
def runPullRequest (env : Env) (st : List StatusItem) (pu : List PushResult) : List String :=
  buildToPull (runAfterPush env st pu).unchanged (buildServerMap st) (runLocalMap env)

/-- The device_info entries of a localMap as classification queues them. -/
def deviceReqs (lm : LMap) (sm : SMap) : List PushReq :=
  (lm.filter (fun p => p.1 = "device_info")).map
    (fun p => ⟨p.1, p.2.data,
      match sGet sm p.1 with
      | some s => s.syncVersion
      | none => 0⟩)

end AnantaSync

/- ══════════════ concrete scenarios ══════════════ -/

open AnantaSync SpecServer

/-- A one-entry pinned-shortcut payload. -/
def wPinnedA : JVal := .arr [.obj [("n", .str "a")]]

/-- A different pinned-shortcut payload. -/
def wPinnedB : JVal := .arr [.obj [("n", .str "b")]]

/-- A small world-clock payload. -/
def wClocks : JVal := .arr [.obj [("city", .str "x")]]

/-- A small device fingerprint. -/
def wDev : JVal := .obj [("os", .str "l")]

/-- A stored auth record holding an access token. -/
def wAuth : String := "\x7b\"accessToken\":\"t\"\x7d"

/-- First-sync scenario of claim C1: empty metadata, empty server, one
pinned-shortcut entry added locally. -/
def envFirstSync : Env :=
  { store := [("anantaAuth", wAuth), ("anantaDeviceId", "dev1"),
              ("pinnedApps", jsonStringify wPinnedA)]
    bookmarks := none
    browsingHistory := none
    topSites := none
    deviceInfo := wDev
    browserType := "chrome"
    freshId := "f" }

/-- A server that already holds pinned_apps (with a payload differing from
the local one), settings and device_info. -/
def srvLocalEdit : SrvState :=
  [("pinned_apps", ⟨computeChecksum wPinnedB, 1, wPinnedB⟩),
   ("settings", ⟨computeChecksum defaultSettings, 1, defaultSettings⟩),
   ("device_info", ⟨computeChecksum wDev, 1, wDev⟩)]

/-- A status response listing pinned_apps at version 5 plus matching
settings and device_info records. -/
def stConflict : List StatusItem :=
  [⟨"pinned_apps", computeChecksum wPinnedB, 5⟩,
   ⟨"settings", computeChecksum defaultSettings, 1⟩,
   ⟨"device_info", computeChecksum wDev, 1⟩]

/-- A push response reporting a conflict for pinned_apps, carrying the
current server payload, plus an unchanged device_info. -/
def puConflict : List PushResult :=
  [⟨"pinned_apps", "conflict", 6, computeChecksum wPinnedB, some wPinnedB⟩,
   ⟨"device_info", "unchanged", 1, computeChecksum wDev, none⟩]

/-- Fully synced scenario: every local category exists server-side with a
matching checksum, and conversely. -/
def envSynced : Env :=
  { store := [("anantaAuth", wAuth), ("anantaDeviceId", "dev1"),
              ("pinnedApps", jsonStringify wPinnedA),
              ("worldClocks", jsonStringify wClocks)]
    bookmarks := none
    browsingHistory := none
    topSites := none
    deviceInfo := wDev
    browserType := "chrome"
    freshId := "f" }

def srvSynced : SrvState :=
  [("pinned_apps", ⟨computeChecksum wPinnedA, 2, wPinnedA⟩),
   ("world_clocks", ⟨computeChecksum wClocks, 1, wClocks⟩),
   ("settings", ⟨computeChecksum defaultSettings, 1, defaultSettings⟩),
   ("device_info", ⟨computeChecksum wDev, 3, wDev⟩)]

/-- A minimal environment whose device fingerprint matches the server
record, for the device_info exception of claim C7. -/
def envDev : Env :=
  { store := [("anantaAuth", wAuth), ("anantaDeviceId", "dev1")]
    bookmarks := none
    browsingHistory := none
    topSites := none
    deviceInfo := wDev
    browserType := "chrome"
    freshId := "f" }

/-- A status response where settings and device_info both match the local
checksums. -/
def stDev : List StatusItem :=
  [⟨"settings", computeChecksum defaultSettings, 1⟩,
   ⟨"device_info", computeChecksum wDev, 4⟩]

/-- A status response for the C7 witness: only pinned_apps is known
server-side and matches the local copy. -/
def stPinnedOnly : List StatusItem :=
  [⟨"pinned_apps", computeChecksum wPinnedA, 2⟩]

/-- A push response for the C7 witness: settings and device_info created. -/
def puPinnedOnly : List PushResult :=
  [⟨"settings", "created", 1, computeChecksum defaultSettings, none⟩,
   ⟨"device_info", "created", 1, computeChecksum wDev, none⟩]

/- ══════════════ association-list lemmas ══════════════ -/

theorem sGet_sSet_self {α : Type} (m : List (String × α)) (k : String) (v : α) :
    sGet (sSet m k v) k = some v := by
  induction m with
  | nil => simp [sSet, sGet]
  | cons p rest ih =>
    by_cases h : p.1 = k
    · simp [sSet, sGet, h]
    · simp [sSet, sGet, h, ih]

theorem sGet_sSet_ne {α : Type} (m : List (String × α)) (k k' : String) (v : α)
    (h : k ≠ k') : sGet (sSet m k' v) k = sGet m k := by
  have h2 : ¬ k' = k := fun hh => h hh.symm
  induction m with
  | nil => simp [sSet, sGet, h2]
  | cons p rest ih =>
    by_cases hp : p.1 = k'
    · simp [sSet, sGet, hp, h2]
    · simp only [sSet, hp, if_false, sGet]
      by_cases hk : p.1 = k
      · simp [hk]
      · simp [hk, ih]

theorem sGet_sDel_ne {α : Type} (m : List (String × α)) (k k' : String)
    (h : k ≠ k') : sGet (sDel m k') k = sGet m k := by
  induction m with
  | nil => simp [sDel, sGet]
  | cons p rest ih =>
    by_cases hp : p.1 = k'
    · have h2 : ¬ k' = k := fun hh => h hh.symm
      simp [sDel, sGet, hp, h2, ih]
    · simp only [sDel, hp, if_false, sGet]
      by_cases hk : p.1 = k
      · simp [hk]
      · simp [hk, ih]

theorem sGet_isSome_of_mem_keys {α : Type} (m : List (String × α)) (dt : String)
    (h : dt ∈ m.map Prod.fst) : (sGet m dt).isSome := by
  induction m with
  | nil => simp at h
  | cons p rest ih =>
    simp only [List.map_cons, List.mem_cons] at h
    by_cases hp : p.1 = dt
    · simp [sGet, hp]
    · simp only [sGet, hp, if_false]
      exact ih (h.resolve_left (fun hh => hp hh.symm))

theorem mem_keys_of_sGet_isSome {α : Type} (m : List (String × α)) (dt : String)
    (h : (sGet m dt).isSome) : dt ∈ m.map Prod.fst := by
  induction m with
  | nil => simp [sGet] at h
  | cons p rest ih =>
    by_cases hp : p.1 = dt
    · simp [hp]
    · simp only [sGet, hp, if_false] at h
      simp [ih h]

namespace AnantaSync

theorem applySettingsLocal_frame (data : JVal) (store : Store) (k : String)
    (h1 : k ≠ "ananta-fmt-24h") (h2 : k ≠ "selectedBookmarkFolder")
    (h3 : k ≠ "openBookmarkFolders") :
    getItem (applySettingsLocal data store) k = getItem store k := by
  unfold applySettingsLocal
  split
  · split <;> split <;> split <;>
      simp [getItem, setItem, removeItem, sGet_sSet_ne, sGet_sDel_ne, h1, h2, h3]
  · simp [getItem, removeItem, sGet_sDel_ne, h1, h2, h3]

/-- Claim C8: applying a pulled item or clearing a tombstoned category
touches only the localStorage keys of its own category (pinnedApps for
pinned_apps; worldClocks for world_clocks; ananta-fmt-24h,
selectedBookmarkFolder, openBookmarkFolders for settings); every other
key is unchanged, and for a non-mirrored category both operations are
the identity on the store. -/
theorem c8_apply_clear_frame (dataType : String) (data : JVal) (store : Store) (k : String) :
    (k ∉ categoryKeys dataType →
      getItem (applyToLocal dataType data store) k = getItem store k ∧
      getItem (clearLocal dataType store) k = getItem store k) ∧
    (dataType ∉ LOCAL_STORABLE →
      applyToLocal dataType data store = store ∧ clearLocal dataType store = store) := by
  constructor
  · intro hk
    by_cases h1 : dataType = "pinned_apps"
    · simp [categoryKeys, h1] at hk
      simp [applyToLocal, clearLocal, h1, getItem, setItem, removeItem,
        sGet_sSet_ne, sGet_sDel_ne, hk]
    · by_cases h2 : dataType = "world_clocks"
      · simp [categoryKeys, h1, h2] at hk
        simp [applyToLocal, clearLocal, h1, h2, getItem, setItem, removeItem,
          sGet_sSet_ne, sGet_sDel_ne, hk]
      · by_cases h3 : dataType = "settings"
        · simp [categoryKeys, h1, h2, h3] at hk
          obtain ⟨hka, hkb, hkc⟩ := hk
          refine ⟨?_, ?_⟩
          · simp only [applyToLocal, h1, h2, h3, if_false, if_true]
            exact applySettingsLocal_frame data store k hka hkb hkc
          · simp [clearLocal, h1, h2, h3, getItem, removeItem,
              sGet_sDel_ne, hka, hkb, hkc]
        · simp [applyToLocal, clearLocal, h1, h2, h3]
  · intro hm
    have h1 : dataType ≠ "pinned_apps" := by
      intro h; exact hm (by simp [LOCAL_STORABLE, h])
    have h2 : dataType ≠ "world_clocks" := by
      intro h; exact hm (by simp [LOCAL_STORABLE, h])
    have h3 : dataType ≠ "settings" := by
      intro h; exact hm (by simp [LOCAL_STORABLE, h])
    simp [applyToLocal, clearLocal, h1, h2, h3]

/-- Witness for C8 at a concrete input: applying a pinned_apps item leaves
the worldClocks key unchanged, and a bookmarks item changes nothing. -/
theorem c8_apply_clear_frame_witness :
    ("worldClocks" ∉ categoryKeys "pinned_apps" ∧
      (getItem (applyToLocal "pinned_apps" (.arr []) [("worldClocks", "[]")]) "worldClocks" =
          getItem [("worldClocks", "[]")] "worldClocks" ∧
        getItem (clearLocal "pinned_apps" [("worldClocks", "[]")]) "worldClocks" =
          getItem [("worldClocks", "[]")] "worldClocks")) ∧
    ("bookmarks" ∉ LOCAL_STORABLE ∧
      (applyToLocal "bookmarks" (.arr []) [("worldClocks", "[]")] = [("worldClocks", "[]")] ∧
        clearLocal "bookmarks" [("worldClocks", "[]")] = [("worldClocks", "[]")])) :=
  ⟨⟨by decide, (c8_apply_clear_frame "pinned_apps" (.arr []) [("worldClocks", "[]")]
      "worldClocks").1 (by decide)⟩,
   ⟨by decide, (c8_apply_clear_frame "bookmarks" (.arr []) [("worldClocks", "[]")]
      "worldClocks").2 (by decide)⟩⟩

/-- Claim C10: the collected snapshot always contains a settings item;
when none of the three settings keys exist locally, that item carries the
default values (fmt24h "0", null folder fields), so settings is never
classified as locally absent. -/
theorem c10_settings_always_collected (store : Store) :
    "settings" ∈ (collectLocalStorageData store).map LocalItem.dataType ∧
    (getItem store "ananta-fmt-24h" = none →
     getItem store "selectedBookmarkFolder" = none →
     getItem store "openBookmarkFolders" = none →
     (⟨"settings", defaultSettings⟩ : LocalItem) ∈ collectLocalStorageData store) := by
  constructor
  · unfold collectLocalStorageData
    simp
  · intro h1 h2 h3
    unfold collectLocalStorageData
    rw [h1, h2, h3]
    simp [defaultSettings]

/-- Witness for C10 on the empty store. -/
theorem c10_settings_always_collected_witness :
    "settings" ∈ (collectLocalStorageData []).map LocalItem.dataType ∧
    ((⟨"settings", defaultSettings⟩ : LocalItem) ∈ collectLocalStorageData []) :=
  ⟨(c10_settings_always_collected []).1,
   (c10_settings_always_collected []).2 rfl rfl rfl⟩

/-- Claim C9: with no stored access token, smartSync, push and pull throw
before any network call or local mutation (the store and the server state
are returned untouched, for every network implementation), while status
resolves to null (none) instead of throwing. -/
theorem c9_not_authenticated {σ : Type} (env : Env) (net : Net σ) (srv : σ)
    (h : hasToken env.store = false) :
    smartSync env net srv = .err .notAuth env.store srv ∧
    push env net srv = .err .notAuth env.store srv ∧
    pull env net srv = .err .notAuth env.store srv ∧
    status env net srv = .ok env.store srv none := by
  refine ⟨?_, ?_, ?_, ?_⟩ <;> simp [smartSync, push, pull, status, h]

/-- Witness for C9: the empty store holds no token. -/
theorem c9_not_authenticated_witness :
    hasToken ([] : Store) = false ∧
    (smartSync ⟨[], none, none, none, .null, "chrome", "f"⟩ (scriptNet [] [] []) () =
        .err .notAuth [] () ∧
      push ⟨[], none, none, none, .null, "chrome", "f"⟩ (scriptNet [] [] []) () =
        .err .notAuth [] () ∧
      pull ⟨[], none, none, none, .null, "chrome", "f"⟩ (scriptNet [] [] []) () =
        .err .notAuth [] () ∧
      status ⟨[], none, none, none, .null, "chrome", "f"⟩ (scriptNet [] [] []) () =
        .ok [] () none) :=
  ⟨rfl, c9_not_authenticated ⟨[], none, none, none, .null, "chrome", "f"⟩
    (scriptNet [] [] []) () rfl⟩

end AnantaSync

/- ══════════════ claim C5: checksum canonicalization ══════════════ -/

set_option maxRecDepth 10000 in
/-- Claim C5 (code bug): two structurally equal objects whose fields are
the same key-value pairs in different insertion orders hash to different
digests, because computeChecksum hashes JSON.stringify output without
canonical key ordering. The claim (and the spec requirement of canonical
serialization) is violated by the code. -/
theorem c5_checksum_not_canonical :
    ([("a", JVal.num 1), ("b", JVal.num 2)]).Perm [("b", JVal.num 2), ("a", JVal.num 1)] ∧
    computeChecksum (.obj [("a", .num 1), ("b", .num 2)]) ≠
      computeChecksum (.obj [("b", .num 2), ("a", .num 1)]) :=
  ⟨List.Perm.swap _ _ _, by decide⟩

/- ══════════════ claim C1: first-sync scenario ══════════════ -/

set_option maxRecDepth 10000 in
/-- Claim C1 (code bug): from empty local state and an empty server, after
adding one pinned entry locally, one smartSync run pushes pinned_apps
(together with the always-collected settings and always-pushed
device_info, so pushed is not just pinned_apps), but then the tombstone
sweep, keyed on the pre-push status response, clears the local pinned
data and deletes the just-created metadata entry: the stored metadata for
pinned_apps is absent, not version 1, although a subsequent status call
reports syncVersion 1. -/
theorem c1_first_sync_metadata_lost :
    ∃ store srv res,
      smartSync envFirstSync specNet [] = .ok store srv res ∧
      res.pushed = ["pinned_apps", "settings", "device_info"] ∧
      res.pushed ≠ ["pinned_apps"] ∧
      metaTruthy (getSyncMeta store) "pinned_apps" = false ∧
      getItem store "pinnedApps" = none ∧
      ∃ srv2 items,
        status { envFirstSync with store := store } specNet srv = .ok store srv2 (some items) ∧
        (sGet (buildServerMap items) "pinned_apps").map StatusItem.syncVersion = some 1 :=
  ⟨_, _, _, rfl, rfl, by decide, rfl, rfl, _, _, rfl, rfl⟩

/- ══════════════ counterexamples for C6, C2, C3, C4 ══════════════ -/

set_option maxRecDepth 10000 in
/-- Counterexample for claim C6: from a state with a local pinned entry
and an empty server (no mutation between runs), the first smartSync run
already returns a nonempty pushed list, so the two runs do not both
return pushed = []. -/
theorem c6_counterexample_first_run_pushes :
    ∃ store srv res,
      smartSync envFirstSync specNet [] = .ok store srv res ∧
      res.pushed ≠ [] :=
  ⟨_, _, _, rfl, by decide⟩

set_option maxRecDepth 10000 in
/-- Counterexample for claim C2: a run whose push round trip completed
(the response recorded pinned_apps at version 6) and whose pull round
trip then failed aborts with the durable metadata still empty: the
completed push phase did not persist its metadata updates, contradicting
per-phase persistence. -/
theorem c2_counterexample_no_partial_persist :
    ∃ store,
      smartSync envFirstSync (scriptNetPullFail stConflict puConflict) () =
        .err .netFail store () ∧
      (puConflict.map PushResult.dataType ≠ []) ∧
      getItem store META_KEY = none ∧
      getSyncMeta store = [] :=
  ⟨_, rfl, by decide, rfl, rfl⟩

set_option maxRecDepth 10000 in
/-- Counterexample for claim C3: with a locally edited pinned_apps that
also exists server-side, the run pushes pinned_apps (status updated) and
then still requests pinned_apps in the pull call: the pull set does not
subtract the categories already pushed this run. -/
theorem c3_counterexample_pushed_also_pulled :
    ∃ store srv reqs res,
      smartSync envFirstSync (recordingNet specNet) (srvLocalEdit, []) =
        .ok store (srv, reqs) res ∧
      res.pushed = ["pinned_apps"] ∧
      reqs = [["pinned_apps"]] :=
  ⟨_, _, _, _, rfl, rfl, rfl⟩

set_option maxRecDepth 10000 in
/-- Counterexample for claim C4: a conflict push result for the mirrored
pinned_apps category carrying the server payload does not overwrite local
storage during the smartSync push phase: with an empty pull response the
run ends with the old local payload still stored, although the category
is recorded under conflicts. -/
theorem c4_counterexample_no_overwrite :
    ∃ store res,
      smartSync envFirstSync (scriptNet stConflict puConflict []) () = .ok store () res ∧
      res.conflicts = ["pinned_apps"] ∧
      (puConflict.head?.map PushResult.serverData = some (some wPinnedB)) ∧
      getItem store "pinnedApps" = some (jsonStringify wPinnedA) ∧
      jsonStringify wPinnedA ≠ jsonStringify wPinnedB :=
  ⟨_, _, rfl, rfl, rfl, rfl, by decide⟩

/- ══════════════ amended C2: no partial metadata persistence ══════════════ -/

namespace AnantaSync

theorem getDeviceId_frame (store : Store) (fid : String) (k : String)
    (h : k ≠ "anantaDeviceId") :
    getItem (getDeviceId store fid).2 k = getItem store k := by
  unfold getDeviceId
  cases hd : getItem store "anantaDeviceId" with
  | none => simpa [getItem, setItem] using sGet_sSet_ne store k "anantaDeviceId" fid h
  | some id =>
    by_cases hid : id = ""
    · simpa [hid, getItem, setItem] using sGet_sSet_ne store k "anantaDeviceId" fid h
    · simp [hid]

theorem finishSync_err {σ : Type} (env : Env) (net : Net σ) (store : Store) (srv : σ)
    (lm : LMap) (sm : SMap) (meta : Meta) (pushed conflicts unchanged : List String)
    (e : SyncErr) (st' : Store) (srv' : σ)
    (h : finishSync env net store srv lm sm meta pushed conflicts unchanged =
      .err e st' srv') : st' = store := by
  simp only [finishSync] at h
  split at h
  · exact absurd h (by simp)
  · split at h
    · injection h with h1 h2 h3
      exact h2.symm
    · exact absurd h (by simp)

/-- Claim C2 (amended): when any round trip of smartSync fails, the run
aborts and the durable sync metadata under META_KEY is exactly what it
was before the run (and every other key except the device id is also
untouched): metadata is persisted once, only at the end of a fully
successful run, never per phase. -/
theorem c2_failure_leaves_metadata_untouched {σ : Type} (env : Env) (net : Net σ)
    (srv : σ) (e : SyncErr) (st' : Store) (srv' : σ)
    (h : smartSync env net srv = .err e st' srv') :
    getItem st' META_KEY = getItem env.store META_KEY ∧
    ∀ k, k ≠ "anantaDeviceId" → getItem st' k = getItem env.store k := by
  have hmk : (META_KEY : String) ≠ "anantaDeviceId" := by decide
  suffices hs : st' = (getDeviceId env.store env.freshId).2 ∨ st' = env.store by
    rcases hs with hs | hs
    · subst hs
      exact ⟨getDeviceId_frame _ _ _ hmk, fun k hk => getDeviceId_frame _ _ _ hk⟩
    · subst hs
      exact ⟨rfl, fun _ _ => rfl⟩
  simp only [smartSync] at h
  by_cases ht : hasToken env.store
  · simp only [ht, if_true] at h
    split at h
    · injection h with h1 h2 h3
      exact .inl h2.symm
    · split at h
      · exact .inl (finishSync_err _ _ _ _ _ _ _ _ _ _ _ _ _ h)
      · split at h
        · injection h with h1 h2 h3
          exact .inl h2.symm
        · exact .inl (finishSync_err _ _ _ _ _ _ _ _ _ _ _ _ _ h)
  · simp only [ht] at h
    simp only [Bool.false_eq_true, if_false] at h
    injection h with h1 h2 h3
    exact .inr h2.symm

set_option maxRecDepth 10000 in
/-- Witness for the amended C2: the run whose pull call fails aborts with
the original store, whose metadata key it leaves untouched. -/
theorem c2_failure_leaves_metadata_untouched_witness :
    smartSync envFirstSync (scriptNetPullFail stConflict puConflict) () =
      .err .netFail envFirstSync.store () ∧
    (getItem envFirstSync.store META_KEY = getItem envFirstSync.store META_KEY ∧
      ∀ k, k ≠ "anantaDeviceId" →
        getItem envFirstSync.store k = getItem envFirstSync.store k) :=
  ⟨rfl, c2_failure_leaves_metadata_untouched envFirstSync
    (scriptNetPullFail stConflict puConflict) () .netFail envFirstSync.store () rfl⟩

end AnantaSync

/- ══════════════ amended C3: the actual pull set ══════════════ -/

namespace AnantaSync

theorem buildToPull_fold_mem (lm : LMap) (keys : List String) (acc : List String) (dt : String) :
    (dt ∈ keys.foldl
      (fun acc dt =>
        if (sGet lm dt).isNone ∧ dt ≠ "device_info" ∧ ¬ acc.contains dt then
          acc ++ [dt]
        else acc) acc) ↔
    (dt ∈ acc ∨ (dt ∈ keys ∧ (sGet lm dt).isNone ∧ dt ≠ "device_info")) := by
  induction keys generalizing acc with
  | nil => simp
  | cons key rest ih =>
    simp only [List.foldl_cons]
    rw [ih]
    constructor
    · rintro (hmem | hrest)
      · by_cases hcond : (sGet lm key).isNone ∧ key ≠ "device_info" ∧ ¬ acc.contains key
        · rw [if_pos hcond] at hmem
          rcases List.mem_append.mp hmem with h | h
          · exact .inl h
          · simp only [List.mem_singleton] at h
            subst h
            exact .inr ⟨List.mem_cons_self _ _, hcond.1, hcond.2.1⟩
        · rw [if_neg hcond] at hmem
          exact .inl hmem
      · exact .inr ⟨List.mem_cons_of_mem _ hrest.1, hrest.2⟩
    · rintro (hacc | ⟨hkeys, hcond1, hcond2⟩)
      · left
        split
        · exact List.mem_append_left _ hacc
        · exact hacc
      · rcases List.mem_cons.mp hkeys with heq | hmem
        · subst heq
          by_cases hc : acc.contains dt
          · have hdt : dt ∈ acc := List.elem_iff.mp hc
            left
            split
            · exact List.mem_append_left _ hdt
            · exact hdt
          · left
            rw [if_pos ⟨hcond1, hcond2, hc⟩]
            exact List.mem_append_right _ (by simp)
        · exact .inr ⟨hmem, hcond1, hcond2⟩

/-- Claim C3 (amended): the pull request of a smartSync run consists of
the mirrored categories present in the status response and not recorded
unchanged, together with the categories of the status response that are
absent locally other than device_info. Categories already pushed this run
are not excluded. -/
theorem c3_pull_set_characterization (unchanged : List String) (sm : SMap) (lm : LMap)
    (dt : String) :
    dt ∈ buildToPull unchanged sm lm ↔
      ((dt ∈ LOCAL_STORABLE ∧ dt ∉ unchanged ∧ (sGet sm dt).isSome) ∨
       ((sGet sm dt).isSome ∧ (sGet lm dt).isNone ∧ dt ≠ "device_info")) := by
  unfold buildToPull
  rw [buildToPull_fold_mem]
  constructor
  · rintro (h | ⟨hk, hn, hd⟩)
    · rw [List.mem_filter] at h
      refine .inl ⟨h.1, ?_, ?_⟩
      · have := h.2
        simp only [decide_eq_true_eq] at this
        intro hmem
        exact this.1 (List.elem_iff.mpr hmem)
      · have := h.2
        simp only [decide_eq_true_eq] at this
        exact this.2
    · exact .inr ⟨sGet_isSome_of_mem_keys _ _ hk, hn, hd⟩
  · rintro (⟨hm, hu, hs⟩ | ⟨hs, hn, hd⟩)
    · left
      rw [List.mem_filter]
      refine ⟨hm, ?_⟩
      simp only [decide_eq_true_eq]
      exact ⟨fun hc => hu (List.elem_iff.mp hc), hs⟩
    · exact .inr ⟨mem_keys_of_sGet_isSome _ _ hs, hn, hd⟩

end AnantaSync

/- ══════════════ amended C4: conflict handling ══════════════ -/

namespace AnantaSync

theorem processPushResults_conflicts_mono (rs : List PushResult) (meta : Meta)
    (pushed conflicts unchanged : List String) (x : String) (hx : x ∈ conflicts) :
    x ∈ (processPushResults rs meta pushed conflicts unchanged).conflicts := by
  induction rs generalizing meta pushed conflicts unchanged with
  | nil => exact hx
  | cons r rest ih =>
    simp only [processPushResults]
    split
    · exact ih _ _ _ _ (List.mem_append_left _ hx)
    · split
      · exact ih _ _ _ _ hx
      · split
        · exact ih _ _ _ _ hx
        · exact ih _ _ _ _ hx

theorem processPushResults_conflict_mem (rs : List PushResult) (meta : Meta)
    (pushed conflicts unchanged : List String) (r : PushResult)
    (hr : r ∈ rs) (hc : r.status = "conflict") :
    r.dataType ∈ (processPushResults rs meta pushed conflicts unchanged).conflicts := by
  induction rs generalizing meta pushed conflicts unchanged with
  | nil => simp at hr
  | cons hd rest ih =>
    rcases List.mem_cons.mp hr with heq | hmem
    · subst heq
      simp only [processPushResults, hc, if_true]
      exact processPushResults_conflicts_mono _ _ _ _ _ _
        (List.mem_append_right _ (by simp))
    · simp only [processPushResults]
      split
      · exact ih _ _ _ _ hmem
      · split
        · exact ih _ _ _ _ hmem
        · split
          · exact ih _ _ _ _ hmem
          · exact ih _ _ _ _ hmem

/-- Claim C4 (amended): in the smartSync push phase a conflict result is
recorded under conflicts (its metadata set to the returned pair), with no
localStorage write in that phase; the immediate server-wins overwrite for
a mirrored category on conflict is performed by the standalone push
operation, which applies the returned server payload to local storage
before continuing. -/
theorem c4_conflict_handling :
    (∀ (rs : List PushResult) (meta : Meta) (pushed conflicts unchanged : List String)
        (r : PushResult), r ∈ rs → r.status = "conflict" →
        r.dataType ∈ (processPushResults rs meta pushed conflicts unchanged).conflicts) ∧
    (∀ (r : PushResult) (rest : List PushResult) (store : Store) (meta : Meta) (sd : JVal),
        r.status = "conflict" → r.serverData = some sd → jTruthy sd = true →
        r.dataType ∈ LOCAL_STORABLE →
        ∃ meta1, pushOpProcess (r :: rest) store meta =
          pushOpProcess rest (applyToLocal r.dataType sd store) meta1) := by
  constructor
  · exact fun rs meta pushed conflicts unchanged r hr hc =>
      processPushResults_conflict_mem rs meta pushed conflicts unchanged r hr hc
  · intro r rest store meta sd hc hsd ht hm
    refine ⟨if r.syncVersion ≠ 0 then metaSetVC meta r.dataType r.syncVersion r.checksum
            else meta, ?_⟩
    simp only [pushOpProcess, hsd]
    rw [if_pos]
    exact ⟨hc, ht, List.elem_iff.mpr hm⟩

set_option maxRecDepth 10000 in
/-- Witness for the amended C4 at the concrete conflict response. -/
theorem c4_conflict_handling_witness :
    ("pinned_apps" ∈ (processPushResults puConflict [] [] [] []).conflicts) ∧
    (∃ meta1, pushOpProcess puConflict [] [] =
      pushOpProcess puConflict.tail
        (applyToLocal "pinned_apps" wPinnedB []) meta1) :=
  ⟨c4_conflict_handling.1 puConflict [] [] [] []
      ⟨"pinned_apps", "conflict", 6, computeChecksum wPinnedB, some wPinnedB⟩
      (by simp [puConflict]) rfl,
   c4_conflict_handling.2
      ⟨"pinned_apps", "conflict", 6, computeChecksum wPinnedB, some wPinnedB⟩
      puConflict.tail [] [] wPinnedB rfl rfl rfl (by decide)⟩

end AnantaSync

/- ══════════════ key-structure lemmas ══════════════ -/

theorem sSet_keys {α : Type} (m : List (String × α)) (k : String) (v : α) :
    (sSet m k v).map Prod.fst =
      if (sGet m k).isSome then m.map Prod.fst else m.map Prod.fst ++ [k] := by
  induction m with
  | nil => simp [sSet, sGet]
  | cons p rest ih =>
    by_cases hp : p.1 = k
    · simp [sSet, sGet, hp]
    · simp only [sSet, hp, if_false, List.map_cons, ih, sGet]
      split <;> simp

theorem sSet_keys_nodup {α : Type} (m : List (String × α)) (k : String) (v : α)
    (h : (m.map Prod.fst).Nodup) : ((sSet m k v).map Prod.fst).Nodup := by
  rw [sSet_keys]
  split
  · exact h
  · next hs =>
    refine List.Nodup.append h (List.nodup_singleton _) ?_
    intro a ha hb
    simp only [List.mem_singleton] at hb
    subst hb
    exact absurd (sGet_isSome_of_mem_keys _ _ ha) (by simpa using hs)

theorem buildLocalMap_keys_nodup (items : List AnantaSync.LocalItem) :
    ((AnantaSync.buildLocalMap items).map Prod.fst).Nodup := by
  unfold AnantaSync.buildLocalMap
  suffices h : ∀ acc : AnantaSync.LMap, (acc.map Prod.fst).Nodup →
      ((items.foldl (fun m it => sSet m it.dataType ⟨it.data, computeChecksum it.data⟩)
        acc).map Prod.fst).Nodup from h [] (by simp)
  induction items with
  | nil => exact fun acc h => h
  | cons it rest ih => exact fun acc h => ih _ (sSet_keys_nodup _ _ _ h)

theorem sSet_mem {α : Type} (m : List (String × α)) (k : String) (v : α)
    (p : String × α) (hp : p ∈ sSet m k v) : p ∈ m ∨ p = (k, v) := by
  induction m with
  | nil => simpa [sSet] using hp
  | cons q rest ih =>
    by_cases hq : q.1 = k
    · simp only [sSet, hq, if_true] at hp
      rcases List.mem_cons.mp hp with h | h
      · exact .inr h
      · exact .inl (List.mem_cons_of_mem _ h)
    · simp only [sSet, hq, if_false] at hp
      rcases List.mem_cons.mp hp with h | h
      · exact .inl (h ▸ List.mem_cons_self _ _)
      · rcases ih h with h2 | h2
        · exact .inl (List.mem_cons_of_mem _ h2)
        · exact .inr h2

theorem foldl_sSet_checksum (items : List AnantaSync.LocalItem) :
    ∀ acc : AnantaSync.LMap,
      (∀ q ∈ acc, (q : String × AnantaSync.LocalEntry).2.checksum = computeChecksum q.2.data) →
      ∀ p ∈ items.foldl
        (fun m it => sSet m it.dataType ⟨it.data, computeChecksum it.data⟩) acc,
        p.2.checksum = computeChecksum p.2.data := by
  induction items with
  | nil => exact fun acc hacc p hp => hacc p hp
  | cons it rest ih =>
    intro acc hacc p hp
    rw [List.foldl_cons] at hp
    refine ih _ ?_ p hp
    intro q hq
    rcases sSet_mem _ _ _ _ hq with h | h
    · exact hacc _ h
    · rw [h]

theorem buildLocalMap_checksum_consistent (items : List AnantaSync.LocalItem)
    (p : String × AnantaSync.LocalEntry) (hp : p ∈ AnantaSync.buildLocalMap items) :
    p.2.checksum = computeChecksum p.2.data :=
  foldl_sSet_checksum items [] (by simp) p hp

namespace AnantaSync

theorem classify_toPush_keys (lm : LMap) (sm : SMap) (meta : Meta) (q : PushReq)
    (hq : q ∈ (classify lm sm meta).toPush) : q.dataType ∈ lm.map Prod.fst := by
  induction lm generalizing meta with
  | nil => simp [classify] at hq
  | cons p rest ih =>
    obtain ⟨k, le⟩ := p
    simp only [classify] at hq
    by_cases hdev : k = "device_info"
    · rw [if_pos hdev] at hq
      dsimp only at hq
      rcases List.mem_cons.mp hq with h | h
      · subst h
        exact List.mem_cons_self _ _
      · exact List.mem_cons_of_mem _ (ih _ h)
    · rw [if_neg hdev] at hq
      cases hsm : sGet sm k with
      | none =>
        rw [hsm] at hq
        dsimp only at hq
        rcases List.mem_cons.mp hq with h | h
        · subst h
          exact List.mem_cons_self _ _
        · exact List.mem_cons_of_mem _ (ih _ h)
      | some s =>
        rw [hsm] at hq
        dsimp only at hq
        by_cases hcs : le.checksum = s.checksum
        · rw [if_pos hcs] at hq
          dsimp only at hq
          exact List.mem_cons_of_mem _ (ih _ hq)
        · rw [if_neg hcs] at hq
          by_cases hkc : knownChecksum meta k ≠ some le.checksum
          · rw [if_pos hkc] at hq
            dsimp only at hq
            rcases List.mem_cons.mp hq with h | h
            · subst h
              exact List.mem_cons_self _ _
            · exact List.mem_cons_of_mem _ (ih _ h)
          · rw [if_neg hkc] at hq
            exact List.mem_cons_of_mem _ (ih _ hq)

theorem classify_meta_frame (lm : LMap) (sm : SMap) (meta : Meta) (dt : String)
    (h : dt ∉ lm.map Prod.fst) :
    sGet (classify lm sm meta).meta dt = sGet meta dt := by
  induction lm generalizing meta with
  | nil => rfl
  | cons p rest ih =>
    obtain ⟨k, le⟩ := p
    simp only [List.map_cons, List.mem_cons, not_or] at h
    obtain ⟨hne, hrest⟩ := h
    have hne2 : dt ≠ k := hne
    simp only [classify]
    by_cases hdev : k = "device_info"
    · rw [if_pos hdev]
      exact ih _ hrest
    · rw [if_neg hdev]
      cases hsm : sGet sm k with
      | none => exact ih _ hrest
      | some s =>
        dsimp only
        by_cases hcs : le.checksum = s.checksum
        · rw [if_pos hcs]
          dsimp only
          rw [ih _ hrest]
          simpa [metaSetVC] using sGet_sSet_ne meta dt k (metaVC s.syncVersion le.checksum) hne2
        · rw [if_neg hcs]
          by_cases hkc : knownChecksum meta k ≠ some le.checksum
          · rw [if_pos hkc]
            exact ih _ hrest
          · rw [if_neg hkc]
            exact ih _ hrest

end AnantaSync

namespace AnantaSync

theorem classify_spec_unchanged (lm : LMap) (sm : SMap) (meta : Meta) (dt : String)
    (le : LocalEntry) (s : StatusItem)
    (hnd : (lm.map Prod.fst).Nodup)
    (hl : sGet lm dt = some le)
    (hdev : dt ≠ "device_info")
    (hs : sGet sm dt = some s)
    (hcs : le.checksum = s.checksum) :
    (∀ q ∈ (classify lm sm meta).toPush, q.dataType ≠ dt) ∧
    dt ∈ (classify lm sm meta).unchanged ∧
    sGet (classify lm sm meta).meta dt = some (metaVC s.syncVersion s.checksum) := by
  induction lm generalizing meta with
  | nil => simp [sGet] at hl
  | cons p rest ih =>
    obtain ⟨k, e⟩ := p
    simp only [List.map_cons, List.nodup_cons] at hnd
    obtain ⟨hknotin, hndrest⟩ := hnd
    by_cases hk : k = dt
    · subst hk
      simp only [sGet, if_pos rfl] at hl
      injection hl with hle
      subst hle
      simp only [classify, if_neg hdev]
      rw [hs]
      dsimp only
      rw [if_pos hcs]
      dsimp only
      refine ⟨?_, List.mem_cons_self _ _, ?_⟩
      · intro q hq hqdt
        exact hknotin (hqdt ▸ classify_toPush_keys _ _ _ _ hq)
      · rw [classify_meta_frame _ _ _ _ hknotin]
        rw [hcs]
        simpa [metaSetVC] using sGet_sSet_self meta k (metaVC s.syncVersion s.checksum)
    · have hl2 : sGet rest dt = some le := by
        simpa [sGet, hk] using hl
      have hkne : ¬ k = dt := hk
      simp only [classify]
      by_cases hkdev : k = "device_info"
      · rw [if_pos hkdev]
        dsimp only
        obtain ⟨h1, h2, h3⟩ := ih meta hndrest hl2
        refine ⟨?_, h2, h3⟩
        intro q hq
        rcases List.mem_cons.mp hq with h | h
        · subst h
          exact fun hc => hk (by simpa using hc)
        · exact h1 _ h
      · rw [if_neg hkdev]
        cases hsm : sGet sm k with
        | none =>
          dsimp only
          obtain ⟨h1, h2, h3⟩ := ih meta hndrest hl2
          refine ⟨?_, h2, h3⟩
          intro q hq
          rcases List.mem_cons.mp hq with h | h
          · subst h
            exact fun hc => hk (by simpa using hc)
          · exact h1 _ h
        | some s2 =>
          dsimp only
          by_cases hcs2 : e.checksum = s2.checksum
          · rw [if_pos hcs2]
            dsimp only
            obtain ⟨h1, h2, h3⟩ := ih (metaSetVC meta k s2.syncVersion e.checksum) hndrest hl2
            exact ⟨h1, List.mem_cons_of_mem _ h2, h3⟩
          · rw [if_neg hcs2]
            by_cases hkc : knownChecksum meta k ≠ some e.checksum
            · rw [if_pos hkc]
              dsimp only
              obtain ⟨h1, h2, h3⟩ := ih meta hndrest hl2
              refine ⟨?_, h2, h3⟩
              intro q hq
              rcases List.mem_cons.mp hq with h | h
              · subst h
                exact fun hc => hk (by simpa using hc)
              · exact h1 _ h
            · rw [if_neg hkc]
              exact ih meta hndrest hl2

end AnantaSync

namespace AnantaSync

theorem processPushResults_preserve (rs : List PushResult) (meta : Meta)
    (pushed conflicts unchanged : List String) (dt : String)
    (hr : ∀ r ∈ rs, r.dataType ≠ dt) :
    sGet (processPushResults rs meta pushed conflicts unchanged).meta dt = sGet meta dt ∧
    (dt ∈ unchanged → dt ∈ (processPushResults rs meta pushed conflicts unchanged).unchanged) ∧
    (dt ∉ pushed → dt ∉ (processPushResults rs meta pushed conflicts unchanged).pushed) ∧
    (dt ∉ conflicts → dt ∉ (processPushResults rs meta pushed conflicts unchanged).conflicts) := by
  induction rs generalizing meta pushed conflicts unchanged with
  | nil => exact ⟨rfl, fun h => h, fun h => h, fun h => h⟩
  | cons r rest ih =>
    have hrdt : r.dataType ≠ dt := hr r (List.mem_cons_self _ _)
    have hrest : ∀ x ∈ rest, x.dataType ≠ dt := fun x hx => hr x (List.mem_cons_of_mem _ hx)
    have hmeta : sGet (metaSetVC meta r.dataType r.syncVersion r.checksum) dt = sGet meta dt := by
      simpa [metaSetVC] using
        sGet_sSet_ne meta dt r.dataType (metaVC r.syncVersion r.checksum) (fun h => hrdt h.symm)
    simp only [processPushResults]
    split
    · obtain ⟨h1, h2, h3, h4⟩ := ih _ _ _ _ hrest
      refine ⟨h1.trans hmeta, h2, h3, fun hc => h4 ?_⟩
      intro hmem
      rcases List.mem_append.mp hmem with h | h
      · exact hc h
      · simp only [List.mem_singleton] at h
        exact hrdt h.symm
    · split
      · obtain ⟨h1, h2, h3, h4⟩ := ih _ _ _ _ hrest
        refine ⟨h1.trans hmeta, h2, fun hp => h3 ?_, h4⟩
        intro hmem
        rcases List.mem_append.mp hmem with h | h
        · exact hp h
        · simp only [List.mem_singleton] at h
          exact hrdt h.symm
      · split
        · obtain ⟨h1, h2, h3, h4⟩ := ih _ _ _ _ hrest
          exact ⟨h1.trans hmeta, fun hu => h2 (List.mem_append_left _ hu), h3, h4⟩
        · obtain ⟨h1, h2, h3, h4⟩ := ih _ _ _ _ hrest
          exact ⟨h1.trans hmeta, h2, h3, h4⟩

theorem buildToPull_not_mem (unchanged : List String) (sm : SMap) (lm : LMap) (dt : String)
    (hu : dt ∈ unchanged) (hl : (sGet lm dt).isSome) :
    dt ∉ buildToPull unchanged sm lm := by
  intro hmem
  rcases (c3_pull_set_characterization unchanged sm lm dt).mp hmem with ⟨_, hnu, _⟩ | ⟨_, hn, _⟩
  · exact hnu hu
  · rw [Option.isNone_iff_eq_none] at hn
    rw [hn] at hl
    simp at hl

theorem processPullItems_preserve (items : List PullItem) (store : Store) (meta : Meta)
    (pulled : List String) (dt : String)
    (hi : ∀ i ∈ items, i.dataType ≠ dt) :
    sGet (processPullItems items store meta pulled).meta dt = sGet meta dt ∧
    (dt ∉ pulled → dt ∉ (processPullItems items store meta pulled).pulled) := by
  induction items generalizing store meta pulled with
  | nil => exact ⟨rfl, fun h => h⟩
  | cons it rest ih =>
    have hidt : it.dataType ≠ dt := hi it (List.mem_cons_self _ _)
    have hrest : ∀ x ∈ rest, x.dataType ≠ dt := fun x hx => hi x (List.mem_cons_of_mem _ hx)
    have hmeta : ∀ m : Meta,
        sGet (metaSetVC m it.dataType it.syncVersion (computeChecksum it.data)) dt = sGet m dt :=
      fun m => by
        simpa [metaSetVC] using sGet_sSet_ne m dt it.dataType
          (metaVC it.syncVersion (computeChecksum it.data)) (fun h => hidt h.symm)
    simp only [processPullItems]
    obtain ⟨h1, h2⟩ := ih _ _ _ hrest
    refine ⟨h1.trans (hmeta _), fun hp => h2 ?_⟩
    intro hmem
    split at hmem
    · exact hp hmem
    · rcases List.mem_append.mp hmem with h | h
      · exact hp h
      · simp only [List.mem_singleton] at h
        exact hidt h.symm

theorem tombstoneSweep_preserve (cats : List String) (sm : SMap) (store : Store)
    (meta : Meta) (pulled : List String) (dt : String)
    (hsm : (sGet sm dt).isSome) :
    sGet (tombstoneSweep cats sm store meta pulled).meta dt = sGet meta dt ∧
    (dt ∉ pulled → dt ∉ (tombstoneSweep cats sm store meta pulled).pulled) := by
  induction cats generalizing store meta pulled with
  | nil => exact ⟨rfl, fun h => h⟩
  | cons c rest ih =>
    simp only [tombstoneSweep]
    split
    · next hcond =>
      have hcdt : c ≠ dt := by
        intro h
        subst h
        rw [Option.isNone_iff_eq_none] at hcond
        rw [hcond.2] at hsm
        simp at hsm
      obtain ⟨h1, h2⟩ := ih _ _ _
      refine ⟨h1.trans (sGet_sDel_ne meta dt c (fun h => hcdt h.symm)), fun hp => h2 ?_⟩
      intro hmem
      split at hmem
      · exact hp hmem
      · rcases List.mem_append.mp hmem with h | h
        · exact hp h
        · simp only [List.mem_singleton] at h
          exact hcdt h.symm
    · exact ih _ _ _

end AnantaSync

namespace AnantaSync

theorem smartSync_script (env : Env) (st : List StatusItem) (pu : List PushResult)
    (pl : List PullItem) (htok : hasToken env.store = true) :
    smartSync env (scriptNet st pu pl) () =
      (let p := runAfterPush env st pu
       let toPull := runPullRequest env st pu
       if toPull.isEmpty then
         let t := tombstoneSweep LOCAL_STORABLE (buildServerMap st) (runStore1 env) p.meta []
         .ok (saveSyncMeta t.store t.meta) () ⟨p.pushed, t.pulled, p.conflicts, p.unchanged⟩
       else
         let q := processPullItems pl (runStore1 env) p.meta []
         let t := tombstoneSweep LOCAL_STORABLE (buildServerMap st) q.store q.meta q.pulled
         .ok (saveSyncMeta t.store t.meta) () ⟨p.pushed, t.pulled, p.conflicts, p.unchanged⟩) := by
  simp only [smartSync, scriptNet, htok, if_true, finishSync, runAfterPush, runPullRequest,
    runClassified, runLocalMap, runStore1]
  split
  · next hpe => simp only [hpe, if_true]
  · next hpe => simp only [hpe, if_false]

end AnantaSync

namespace AnantaSync

/-- Claim C7 (amended): for every category other than device_info whose
locally computed checksum equals the checksum in the status response,
smartSync puts no item for it in the push request, does not request it in
the pull call, reports it unchanged (not pushed, pulled or conflicted),
and persists its metadata entry as the server pair (version, checksum).
device_info is exempt from the unchanged rule: it is always pushed. -/
theorem c7_unchanged_category (env : Env) (st : List StatusItem) (pu : List PushResult)
    (pl : List PullItem) (dt : String) (le : LocalEntry) (s : StatusItem)
    (htok : hasToken env.store = true)
    (hl : sGet (runLocalMap env) dt = some le)
    (hdev : dt ≠ "device_info")
    (hs : sGet (buildServerMap st) dt = some s)
    (hcs : le.checksum = s.checksum)
    (hpu : ∀ r ∈ pu, r.dataType ≠ dt)
    (hpl : ∀ i ∈ pl, i.dataType ≠ dt) :
    (∀ q ∈ runPushRequest env st, q.dataType ≠ dt) ∧
    dt ∉ runPullRequest env st pu ∧
    ∃ store res,
      smartSync env (scriptNet st pu pl) () = .ok store () res ∧
      dt ∈ res.unchanged ∧ dt ∉ res.pushed ∧ dt ∉ res.pulled ∧ dt ∉ res.conflicts ∧
      ∃ m, getItem store META_KEY = some (jsonStringify (.obj m)) ∧
        sGet m dt = some (metaVC s.syncVersion s.checksum) := by
  have hnd : ((runLocalMap env).map Prod.fst).Nodup := buildLocalMap_keys_nodup _
  obtain ⟨hc1, hc2, hc3⟩ :=
    classify_spec_unchanged (runLocalMap env) (buildServerMap st)
      (getSyncMeta (runStore1 env)) dt le s hnd hl hdev hs hcs
  have hsm : (sGet (buildServerMap st) dt).isSome := by rw [hs]; rfl
  have hlm : (sGet (runLocalMap env) dt).isSome := by rw [hl]; rfl
  have hrc : runClassified env st =
      classify (runLocalMap env) (buildServerMap st) (getSyncMeta (runStore1 env)) := rfl
  rw [← hrc] at hc1 hc2 hc3
  have haft : sGet (runAfterPush env st pu).meta dt = some (metaVC s.syncVersion s.checksum) ∧
      dt ∈ (runAfterPush env st pu).unchanged ∧
      dt ∉ (runAfterPush env st pu).pushed ∧
      dt ∉ (runAfterPush env st pu).conflicts := by
    unfold runAfterPush
    dsimp only
    split
    · exact ⟨hc3, hc2, by simp, by simp⟩
    · obtain ⟨h1, h2, h3, h4⟩ :=
        processPushResults_preserve pu (runClassified env st).meta [] []
          (runClassified env st).unchanged dt hpu
      exact ⟨h1.trans hc3, h2 hc2, h3 (by simp), h4 (by simp)⟩
  obtain ⟨haftm, haftu, haftp, haftc⟩ := haft
  have hpush : ∀ q ∈ runPushRequest env st, q.dataType ≠ dt := by
    intro q hq
    unfold runPushRequest mkPushItems at hq
    obtain ⟨p, hp, hpq⟩ := List.mem_map.mp hq
    have := hc1 p hp
    rw [← hpq]
    exact this
  have hpull : dt ∉ runPullRequest env st pu := by
    unfold runPullRequest
    exact buildToPull_not_mem _ _ _ dt haftu hlm
  refine ⟨hpush, hpull, ?_⟩
  rw [smartSync_script env st pu pl htok]
  dsimp only
  split
  · obtain ⟨ht1, ht2⟩ := tombstoneSweep_preserve LOCAL_STORABLE (buildServerMap st)
      (runStore1 env) (runAfterPush env st pu).meta [] dt hsm
    refine ⟨_, _, rfl, haftu, haftp, ht2 (by simp), haftc,
      (tombstoneSweep LOCAL_STORABLE (buildServerMap st) (runStore1 env)
        (runAfterPush env st pu).meta []).meta, ?_, ?_⟩
    · simpa [saveSyncMeta, setItem, getItem] using
        sGet_sSet_self _ META_KEY (jsonStringify (.obj (tombstoneSweep LOCAL_STORABLE
          (buildServerMap st) (runStore1 env) (runAfterPush env st pu).meta []).meta))
    · exact ht1.trans haftm
  · obtain ⟨hq1, hq2⟩ := processPullItems_preserve pl (runStore1 env)
      (runAfterPush env st pu).meta [] dt hpl
    obtain ⟨ht1, ht2⟩ := tombstoneSweep_preserve LOCAL_STORABLE (buildServerMap st)
      (processPullItems pl (runStore1 env) (runAfterPush env st pu).meta []).store
      (processPullItems pl (runStore1 env) (runAfterPush env st pu).meta []).meta
      (processPullItems pl (runStore1 env) (runAfterPush env st pu).meta []).pulled dt hsm
    refine ⟨_, _, rfl, haftu, haftp, ht2 (hq2 (by simp)), haftc,
      (tombstoneSweep LOCAL_STORABLE (buildServerMap st)
        (processPullItems pl (runStore1 env) (runAfterPush env st pu).meta []).store
        (processPullItems pl (runStore1 env) (runAfterPush env st pu).meta []).meta
        (processPullItems pl (runStore1 env) (runAfterPush env st pu).meta []).pulled).meta, ?_, ?_⟩
    · simpa [saveSyncMeta, setItem, getItem] using
        sGet_sSet_self _ META_KEY (jsonStringify (.obj (tombstoneSweep LOCAL_STORABLE
          (buildServerMap st)
          (processPullItems pl (runStore1 env) (runAfterPush env st pu).meta []).store
          (processPullItems pl (runStore1 env) (runAfterPush env st pu).meta []).meta
          (processPullItems pl (runStore1 env) (runAfterPush env st pu).meta []).pulled).meta))
    · exact ht1.trans (hq1.trans haftm)

end AnantaSync

namespace AnantaSync

set_option maxRecDepth 10000 in
/-- Witness for the amended C7: pinned_apps is synced (local checksum
equals the server checksum at version 2); the run pushes only the other
categories, pulls nothing, reports pinned_apps unchanged and persists the
server pair for it. -/
theorem c7_unchanged_category_witness :
    (∀ q ∈ runPushRequest envSynced stPinnedOnly, q.dataType ≠ "pinned_apps") ∧
    "pinned_apps" ∉ runPullRequest envSynced stPinnedOnly puPinnedOnly ∧
    ∃ store res,
      smartSync envSynced (scriptNet stPinnedOnly puPinnedOnly []) () = .ok store () res ∧
      "pinned_apps" ∈ res.unchanged ∧ "pinned_apps" ∉ res.pushed ∧
      "pinned_apps" ∉ res.pulled ∧ "pinned_apps" ∉ res.conflicts ∧
      ∃ m, getItem store META_KEY = some (jsonStringify (.obj m)) ∧
        sGet m "pinned_apps" = some (metaVC 2 (computeChecksum wPinnedA)) :=
  c7_unchanged_category envSynced stPinnedOnly puPinnedOnly [] "pinned_apps"
    ⟨wPinnedA, computeChecksum wPinnedA⟩ ⟨"pinned_apps", computeChecksum wPinnedA, 2⟩
    rfl rfl (by decide) rfl rfl (by decide) (by decide)

set_option maxRecDepth 10000 in
/-- Counterexample for claim C7: the locally computed device_info checksum
equals the checksum the status response reports, yet the push request of
the run still contains device_info (it is pushed every run). -/
theorem c7_counterexample_device_info :
    (sGet (runLocalMap envDev) "device_info").map LocalEntry.checksum =
      (sGet (buildServerMap stDev) "device_info").map StatusItem.checksum ∧
    (runPushRequest envDev stDev).map PushItem.dataType = ["device_info"] :=
  ⟨rfl, rfl⟩

end AnantaSync

/- ══════════════ C6 support: status map and synced classification ══════════════ -/

theorem sGet_eq_none_of_not_mem_keys {α : Type} (m : List (String × α)) (dt : String)
    (h : dt ∉ m.map Prod.fst) : sGet m dt = none := by
  cases hg : sGet m dt with
  | none => rfl
  | some v =>
    exact absurd (mem_keys_of_sGet_isSome m dt (by rw [hg]; rfl)) h

namespace AnantaSync

theorem srvStatus_fold (srv : SpecServer.SrvState) (dt : String) :
    ∀ acc : SMap, (srv.map Prod.fst).Nodup →
    sGet ((SpecServer.srvStatus srv).foldl (fun m s => sSet m s.dataType s) acc) dt =
      (match sGet srv dt with
       | some r => some (⟨dt, r.checksum, r.syncVersion⟩ : StatusItem)
       | none => sGet acc dt) := by
  induction srv with
  | nil => intro acc _; rfl
  | cons p rest ih =>
    intro acc hnd
    simp only [List.map_cons, List.nodup_cons] at hnd
    obtain ⟨hnotin, hndrest⟩ := hnd
    simp only [SpecServer.srvStatus, List.map_cons, List.foldl_cons] at *
    by_cases hk : p.1 = dt
    · subst hk
      rw [ih _ hndrest]
      rw [sGet_eq_none_of_not_mem_keys rest p.1 hnotin]
      simp only [sGet, if_pos rfl]
      simpa using (sGet_sSet_self acc p.1 ⟨p.1, p.2.checksum, p.2.syncVersion⟩)
    · rw [ih _ hndrest]
      simp only [sGet, hk, if_false]
      cases sGet rest dt with
      | some r => rfl
      | none => exact sGet_sSet_ne acc dt p.1 _ (fun h => hk h.symm)

theorem sGet_buildServerMap_srvStatus (srv : SpecServer.SrvState)
    (hnd : (srv.map Prod.fst).Nodup) (dt : String) :
    sGet (buildServerMap (SpecServer.srvStatus srv)) dt =
      (sGet srv dt).map (fun r => (⟨dt, r.checksum, r.syncVersion⟩ : StatusItem)) := by
  unfold buildServerMap
  rw [srvStatus_fold srv dt [] hnd]
  cases sGet srv dt <;> rfl

theorem classify_all_unchanged (lm : LMap) (sm : SMap) :
    ∀ meta : Meta,
    (∀ p ∈ lm, p.1 ≠ "device_info" →
      ∃ s, sGet sm p.1 = some s ∧ s.checksum = p.2.checksum) →
    ∃ meta2,
      classify lm sm meta =
        ⟨deviceReqs lm sm, (lm.map Prod.fst).filter (fun k => ¬ k = "device_info"), meta2⟩ := by
  induction lm with
  | nil => exact fun meta _ => ⟨meta, rfl⟩
  | cons p rest ih =>
    intro meta h
    obtain ⟨k, le⟩ := p
    have hrest : ∀ q ∈ rest, q.1 ≠ "device_info" →
        ∃ s, sGet sm q.1 = some s ∧ s.checksum = q.2.checksum :=
      fun q hq => h q (List.mem_cons_of_mem _ hq)
    simp only [classify]
    by_cases hdev : k = "device_info"
    · rw [if_pos hdev]
      obtain ⟨meta2, hm⟩ := ih meta hrest
      refine ⟨meta2, ?_⟩
      rw [hm]
      simp [deviceReqs, hdev]
    · rw [if_neg hdev]
      obtain ⟨s, hss, hsc⟩ := h (k, le) (List.mem_cons_self _ _) hdev
      rw [hss]
      dsimp only
      rw [if_pos hsc.symm]
      obtain ⟨meta2, hm⟩ := ih (metaSetVC meta k s.syncVersion le.checksum) hrest
      refine ⟨meta2, ?_⟩
      rw [hm]
      simp [deviceReqs, hdev]

end AnantaSync

namespace AnantaSync

theorem srvPush_all_unchanged (items : List PushItem) :
    ∀ s : SpecServer.SrvState,
    (∀ it ∈ items, ∃ r, sGet s it.dataType = some r ∧
      it.baseVersion = r.syncVersion ∧ it.checksum = r.checksum) →
    ∃ rs, SpecServer.srvPush s items = (s, rs) ∧
      rs.map PushResult.dataType = items.map PushItem.dataType ∧
      ∀ x ∈ rs, x.status = "unchanged" := by
  induction items with
  | nil => exact fun s _ => ⟨[], rfl, rfl, by simp⟩
  | cons it rest ih =>
    intro s h
    obtain ⟨r, hr, hbv, hcs⟩ := h it (List.mem_cons_self _ _)
    have hone : SpecServer.srvPushOne s it =
        (s, ⟨it.dataType, "unchanged", r.syncVersion, r.checksum, none⟩) := by
      simp only [SpecServer.srvPushOne, hr]
      rw [if_neg (by simp [hbv]), if_pos hcs]
    obtain ⟨rs, hpush, hmap, hall⟩ := ih s (fun x hx => h x (List.mem_cons_of_mem _ hx))
    refine ⟨⟨it.dataType, "unchanged", r.syncVersion, r.checksum, none⟩ :: rs, ?_, ?_, ?_⟩
    · simp only [SpecServer.srvPush, hone, hpush]
    · simp [hmap]
    · intro x hx
      rcases List.mem_cons.mp hx with h | h
      · rw [h]
      · exact hall x h

theorem processPushResults_all_unchanged (rs : List PushResult) :
    ∀ (meta : Meta) (pushed conflicts unchanged : List String),
    (∀ x ∈ rs, x.status = "unchanged") →
    ∃ meta2, processPushResults rs meta pushed conflicts unchanged =
      ⟨meta2, pushed, conflicts, unchanged ++ rs.map PushResult.dataType⟩ := by
  induction rs with
  | nil => exact fun meta pushed conflicts unchanged _ => ⟨meta, by simp [processPushResults]⟩
  | cons r rest ih =>
    intro meta pushed conflicts unchanged h
    have hr : r.status = "unchanged" := h r (List.mem_cons_self _ _)
    simp only [processPushResults, hr]
    rw [if_neg (by decide), if_neg (by decide)]
    simp only [if_true]
    obtain ⟨meta2, hm⟩ := ih _ pushed conflicts (unchanged ++ [r.dataType])
      (fun x hx => h x (List.mem_cons_of_mem _ hx))
    refine ⟨meta2, ?_⟩
    rw [hm]
    simp

theorem buildToPull_nil (unch : List String) (sm : SMap) (lm : LMap)
    (hA : ∀ dt ∈ LOCAL_STORABLE, (sGet sm dt).isSome → dt ∈ unch)
    (hB : ∀ dt, (sGet sm dt).isSome → (sGet lm dt).isSome) :
    buildToPull unch sm lm = [] := by
  rw [List.eq_nil_iff_forall_not_mem]
  intro dt hmem
  rcases (c3_pull_set_characterization unch sm lm dt).mp hmem with ⟨hm, hnu, hs⟩ | ⟨hs, hn, _⟩
  · exact hnu (hA dt hm hs)
  · have := hB dt hs
    rw [Option.isNone_iff_eq_none] at hn
    rw [hn] at this
    simp at this

theorem tombstoneSweep_noop (cats : List String) (sm : SMap) :
    ∀ (store : Store) (meta : Meta) (pulled : List String),
    (∀ dt ∈ cats, (sGet sm dt).isSome) →
    tombstoneSweep cats sm store meta pulled = ⟨store, meta, pulled⟩ := by
  induction cats with
  | nil => exact fun store meta pulled _ => rfl
  | cons c rest ih =>
    intro store meta pulled h
    have hc : (sGet sm c).isSome := h c (List.mem_cons_self _ _)
    simp only [tombstoneSweep]
    rw [if_neg ?_]
    · exact ih store meta pulled (fun dt hdt => h dt (List.mem_cons_of_mem _ hdt))
    · intro hcond
      rw [Option.isNone_iff_eq_none] at hcond
      rw [hcond.2] at hc
      simp at hc

theorem hasToken_congr (s1 s2 : Store) (h : getItem s1 AUTH_KEY = getItem s2 AUTH_KEY) :
    hasToken s1 = hasToken s2 := by
  unfold hasToken getAuth
  rw [h]

theorem collectLocalStorageData_congr (s1 s2 : Store)
    (h1 : getItem s1 "pinnedApps" = getItem s2 "pinnedApps")
    (h2 : getItem s1 "worldClocks" = getItem s2 "worldClocks")
    (h3 : getItem s1 "ananta-fmt-24h" = getItem s2 "ananta-fmt-24h")
    (h4 : getItem s1 "selectedBookmarkFolder" = getItem s2 "selectedBookmarkFolder")
    (h5 : getItem s1 "openBookmarkFolders" = getItem s2 "openBookmarkFolders") :
    collectLocalStorageData s1 = collectLocalStorageData s2 := by
  unfold collectLocalStorageData
  rw [h1, h2, h3, h4, h5]

theorem saveSyncMeta_frame (store : Store) (meta : Meta) (k : String) (h : k ≠ META_KEY) :
    getItem (saveSyncMeta store meta) k = getItem store k := by
  simpa [saveSyncMeta, setItem, getItem] using
    sGet_sSet_ne store k META_KEY (jsonStringify (.obj meta)) h

end AnantaSync

namespace AnantaSync

theorem syncedFinish (env : Env) (srv : SpecServer.SrvState) (store1 : Store) (lm : LMap)
    (metaX : Meta) (pushed conflicts unchF : List String)
    (hA2 : ∀ dt ∈ LOCAL_STORABLE,
      (sGet (buildServerMap (SpecServer.srvStatus srv)) dt).isSome → dt ∈ unchF)
    (hB2 : ∀ dt, (sGet (buildServerMap (SpecServer.srvStatus srv)) dt).isSome →
      (sGet lm dt).isSome)
    (hC2 : ∀ dt ∈ LOCAL_STORABLE,
      (sGet (buildServerMap (SpecServer.srvStatus srv)) dt).isSome) :
    finishSync env SpecServer.specNet store1 srv lm
      (buildServerMap (SpecServer.srvStatus srv)) metaX pushed conflicts unchF =
      .ok (saveSyncMeta store1 metaX) srv ⟨pushed, [], conflicts, unchF⟩ := by
  have htp := buildToPull_nil unchF (buildServerMap (SpecServer.srvStatus srv)) lm hA2 hB2
  simp only [finishSync, htp, List.isEmpty_nil, if_true]
  rw [tombstoneSweep_noop LOCAL_STORABLE _ store1 metaX [] hC2]

theorem filter_split_keys_mem (lm : LMap) (dt : String) :
    (dt ∈ (lm.map Prod.fst).filter (fun k => ¬ k = "device_info") ++
      (lm.filter (fun p => p.1 = "device_info")).map Prod.fst) ↔
    dt ∈ lm.map Prod.fst := by
  simp only [List.mem_append, List.mem_filter, List.mem_map, decide_eq_true_eq]
  constructor
  · rintro (⟨h, _⟩ | ⟨p, ⟨hp, _⟩, hdt⟩)
    · exact h
    · exact ⟨p, hp, hdt⟩
  · rintro ⟨p, hp, hdt⟩
    by_cases hd : dt = "device_info"
    · right
      refine ⟨p, ⟨hp, ?_⟩, hdt⟩
      rw [hdt]
      exact hd
    · left
      exact ⟨⟨p, hp, hdt⟩, hd⟩

end AnantaSync

namespace AnantaSync

theorem syncedRunClean (env : Env) (srv : SpecServer.SrvState)
    (htok : hasToken env.store = true)
    (hnd : (srv.map Prod.fst).Nodup)
    (h1 : ∀ p ∈ runLocalMap env,
      (sGet srv p.1).map SpecServer.SrvRec.checksum = some p.2.checksum)
    (h2 : ∀ dt ∈ srv.map Prod.fst, (sGet (runLocalMap env) dt).isSome)
    (h3 : ∀ dt ∈ LOCAL_STORABLE, (sGet srv dt).isSome) :
    ∃ store2 res,
      smartSync env SpecServer.specNet srv = .ok store2 srv res ∧
      res.pushed = [] ∧ res.pulled = [] ∧ res.conflicts = [] ∧
      (∀ dt, dt ∈ res.unchanged ↔ dt ∈ (runLocalMap env).map Prod.fst) ∧
      (∀ k, k ≠ "anantaDeviceId" → k ≠ META_KEY → getItem store2 k = getItem env.store k) := by
  have hsm : ∀ dt, sGet (buildServerMap (SpecServer.srvStatus srv)) dt =
      (sGet srv dt).map (fun r => (⟨dt, r.checksum, r.syncVersion⟩ : StatusItem)) :=
    sGet_buildServerMap_srvStatus srv hnd
  -- server-present facts transported through the status map
  have hsmB : ∀ dt, (sGet (buildServerMap (SpecServer.srvStatus srv)) dt).isSome →
      (sGet (runLocalMap env) dt).isSome := by
    intro dt h
    rw [hsm dt] at h
    cases ho : sGet srv dt with
    | none =>
      rw [ho] at h
      simp at h
    | some r =>
      exact h2 dt (mem_keys_of_sGet_isSome srv dt (by rw [ho]; rfl))
  have hsmC : ∀ dt ∈ LOCAL_STORABLE,
      (sGet (buildServerMap (SpecServer.srvStatus srv)) dt).isSome := by
    intro dt hdt
    rw [hsm dt]
    cases ho : sGet srv dt with
    | none =>
      have := h3 dt hdt
      rw [ho] at this
      simp at this
    | some r => rfl
  have hcl : ∀ p ∈ runLocalMap env, p.1 ≠ "device_info" →
      ∃ s, sGet (buildServerMap (SpecServer.srvStatus srv)) p.1 = some s ∧
        s.checksum = p.2.checksum := by
    intro p hp _
    have hh := h1 p hp
    rw [Option.map_eq_some'] at hh
    obtain ⟨r, hr, hc⟩ := hh
    exact ⟨⟨p.1, r.checksum, r.syncVersion⟩, by rw [hsm, hr]; rfl, hc⟩
  obtain ⟨meta2, hclassify⟩ :=
    classify_all_unchanged (runLocalMap env) (buildServerMap (SpecServer.srvStatus srv))
      (getSyncMeta (runStore1 env)) hcl
  have hdevhyp : ∀ it ∈ mkPushItems (deviceReqs (runLocalMap env)
      (buildServerMap (SpecServer.srvStatus srv))),
      ∃ r, sGet srv it.dataType = some r ∧
        it.baseVersion = r.syncVersion ∧ it.checksum = r.checksum := by
    intro it hit
    unfold mkPushItems at hit
    obtain ⟨q, hq, hqi⟩ := List.mem_map.mp hit
    unfold deviceReqs at hq
    obtain ⟨p, hpf, hpq⟩ := List.mem_map.mp hq
    have hpl : p ∈ runLocalMap env := List.mem_of_mem_filter hpf
    have hch := h1 p hpl
    rw [Option.map_eq_some'] at hch
    obtain ⟨r, hr, hc⟩ := hch
    subst hqi
    subst hpq
    refine ⟨r, hr, ?_, ?_⟩
    · dsimp only
      rw [hsm, hr]
      rfl
    · dsimp only
      rw [← buildLocalMap_checksum_consistent _ p hpl]
      exact hc.symm
  have hAgen : ∀ unchF : List String,
      ((runLocalMap env).map Prod.fst).filter (fun k => ¬ k = "device_info") ⊆ unchF →
      ∀ dt ∈ LOCAL_STORABLE,
        (sGet (buildServerMap (SpecServer.srvStatus srv)) dt).isSome → dt ∈ unchF := by
    intro unchF hsub dt hdt hsome
    refine hsub (List.mem_filter.mpr ⟨mem_keys_of_sGet_isSome _ _ (hsmB dt hsome), ?_⟩)
    have hddev : dt ≠ "device_info" := by
      intro hh
      rw [hh] at hdt
      exact absurd hdt (by decide)
    simpa using hddev
  have hframe : ∀ metaX : Meta, ∀ k, k ≠ "anantaDeviceId" → k ≠ META_KEY →
      getItem (saveSyncMeta (runStore1 env) metaX) k = getItem env.store k := by
    intro metaX k hk1 hk2
    rw [saveSyncMeta_frame _ _ _ hk2]
    exact getDeviceId_frame _ _ _ hk1
  cases hdevs : deviceReqs (runLocalMap env) (buildServerMap (SpecServer.srvStatus srv)) with
  | nil =>
    have hkeysnil : ((runLocalMap env).filter
        (fun p => p.1 = "device_info")).map Prod.fst = [] := by
      unfold deviceReqs at hdevs
      rw [List.map_eq_nil_iff.mp hdevs]
      rfl
    have hrun : smartSync env SpecServer.specNet srv =
        .ok (saveSyncMeta (runStore1 env) meta2) srv
          ⟨[], [], [],
            ((runLocalMap env).map Prod.fst).filter (fun k => ¬ k = "device_info")⟩ := by
      simp only [smartSync, htok, if_true, SpecServer.specNet]
      rw [show (getDeviceId env.store env.freshId).2 = runStore1 env from rfl]
      rw [show buildLocalMap (collectAllLocal env (runStore1 env)) = runLocalMap env from rfl]
      rw [hclassify]
      rw [hdevs]
      simp only [List.isEmpty_nil, if_true]
      exact syncedFinish env srv _ _ meta2 [] []
        (((runLocalMap env).map Prod.fst).filter (fun k => ¬ k = "device_info"))
        (hAgen _ (fun x hx => hx)) hsmB hsmC
    refine ⟨_, _, hrun, rfl, rfl, rfl, ?_, hframe meta2⟩
    intro dt
    have := filter_split_keys_mem (runLocalMap env) dt
    rw [hkeysnil, List.append_nil] at this
    exact this
  | cons d ds =>
    rw [hdevs] at hdevhyp
    obtain ⟨rs, hpush, hmap, hall⟩ := srvPush_all_unchanged (mkPushItems (d :: ds)) srv hdevhyp
    obtain ⟨meta3, hpp⟩ := processPushResults_all_unchanged rs meta2 [] []
      (((runLocalMap env).map Prod.fst).filter (fun k => ¬ k = "device_info")) hall
    have hrsmap : rs.map PushResult.dataType =
        ((runLocalMap env).filter (fun p => p.1 = "device_info")).map Prod.fst := by
      rw [hmap, ← hdevs]
      unfold mkPushItems deviceReqs
      simp [Function.comp]
    have hrun : smartSync env SpecServer.specNet srv =
        .ok (saveSyncMeta (runStore1 env) meta3) srv
          ⟨[], [], [],
            ((runLocalMap env).map Prod.fst).filter (fun k => ¬ k = "device_info") ++
              rs.map PushResult.dataType⟩ := by
      simp only [smartSync, htok, if_true, SpecServer.specNet]
      rw [show (getDeviceId env.store env.freshId).2 = runStore1 env from rfl]
      rw [show buildLocalMap (collectAllLocal env (runStore1 env)) = runLocalMap env from rfl]
      rw [hclassify]
      rw [hdevs]
      simp only [List.isEmpty_cons, Bool.false_eq_true, if_false]
      rw [hpush]
      dsimp only
      rw [hpp]
      dsimp only
      exact syncedFinish env srv _ _ meta3 [] [] _
        (hAgen _ (fun x hx => List.mem_append_left _ hx)) hsmB hsmC
    refine ⟨_, _, hrun, rfl, rfl, rfl, ?_, hframe meta3⟩
    intro dt
    rw [hrsmap]
    exact filter_split_keys_mem (runLocalMap env) dt

end AnantaSync

namespace AnantaSync

/-- Claim C6 (amended): for a state already in sync - every locally
collected category has a server record with the same checksum, every
server category is locally collected, and every mirrored category is
present server-side - smartSync returns pushed, pulled and conflicts all
empty with unchanged covering exactly the known (locally collected)
categories, leaves the server state untouched, and a second run with no
intervening mutation returns the same summary again. -/
theorem c6_idempotence_when_synced (env : Env) (srv : SpecServer.SrvState)
    (htok : hasToken env.store = true)
    (hnd : (srv.map Prod.fst).Nodup)
    (h1 : ∀ p ∈ runLocalMap env,
      (sGet srv p.1).map SpecServer.SrvRec.checksum = some p.2.checksum)
    (h2 : ∀ dt ∈ srv.map Prod.fst, (sGet (runLocalMap env) dt).isSome)
    (h3 : ∀ dt ∈ LOCAL_STORABLE, (sGet srv dt).isSome) :
    ∃ store2 res1 store3 res2,
      smartSync env SpecServer.specNet srv = .ok store2 srv res1 ∧
      smartSync { env with store := store2 } SpecServer.specNet srv = .ok store3 srv res2 ∧
      (res1.pushed = [] ∧ res1.pulled = [] ∧ res1.conflicts = [] ∧
        (∀ dt, dt ∈ res1.unchanged ↔ dt ∈ (runLocalMap env).map Prod.fst)) ∧
      (res2.pushed = [] ∧ res2.pulled = [] ∧ res2.conflicts = [] ∧
        (∀ dt, dt ∈ res2.unchanged ↔ dt ∈ (runLocalMap env).map Prod.fst)) := by
  obtain ⟨store2, res1, hrun1, hp1, hl1, hc1, hu1, hfr⟩ :=
    syncedRunClean env srv htok hnd h1 h2 h3
  have hkeys : ∀ k, k ≠ "anantaDeviceId" → k ≠ META_KEY →
      getItem (runStore1 { env with store := store2 }) k = getItem (runStore1 env) k := by
    intro k hk1 hk2
    unfold runStore1
    dsimp only
    rw [getDeviceId_frame _ _ _ hk1, getDeviceId_frame _ _ _ hk1]
    exact hfr k hk1 hk2
  have hcoll : collectLocalStorageData (runStore1 { env with store := store2 }) =
      collectLocalStorageData (runStore1 env) :=
    collectLocalStorageData_congr _ _
      (hkeys _ (by decide) (by decide)) (hkeys _ (by decide) (by decide))
      (hkeys _ (by decide) (by decide)) (hkeys _ (by decide) (by decide))
      (hkeys _ (by decide) (by decide))
  have hlm2 : runLocalMap { env with store := store2 } = runLocalMap env := by
    unfold runLocalMap collectAllLocal
    rw [hcoll]
  have htok2 : hasToken ({ env with store := store2 } : Env).store = true := by
    dsimp only
    rw [hasToken_congr store2 env.store (hfr AUTH_KEY (by decide) (by decide))]
    exact htok
  have h1b : ∀ p ∈ runLocalMap { env with store := store2 },
      (sGet srv p.1).map SpecServer.SrvRec.checksum = some p.2.checksum := by
    rw [hlm2]
    exact h1
  have h2b : ∀ dt ∈ srv.map Prod.fst,
      (sGet (runLocalMap { env with store := store2 }) dt).isSome := by
    rw [hlm2]
    exact h2
  obtain ⟨store3, res2, hrun2, hp2, hl2, hc2, hu2, _⟩ :=
    syncedRunClean { env with store := store2 } srv htok2 hnd h1b h2b h3
  refine ⟨store2, res1, store3, res2, hrun1, hrun2,
    ⟨hp1, hl1, hc1, hu1⟩, ⟨hp2, hl2, hc2, ?_⟩⟩
  intro dt
  rw [← hlm2]
  exact hu2 dt

end AnantaSync

namespace AnantaSync

set_option maxRecDepth 100000 in
/-- Witness for the amended C6 at a concrete synced state. -/
theorem c6_idempotence_when_synced_witness :
    (hasToken envSynced.store = true ∧
      ((srvSynced.map Prod.fst).Nodup ∧
        (∀ p ∈ runLocalMap envSynced,
          (sGet srvSynced p.1).map SpecServer.SrvRec.checksum = some p.2.checksum))) ∧
    ∃ store2 res1 store3 res2,
      smartSync envSynced SpecServer.specNet srvSynced = .ok store2 srvSynced res1 ∧
      smartSync { envSynced with store := store2 } SpecServer.specNet srvSynced =
        .ok store3 srvSynced res2 ∧
      (res1.pushed = [] ∧ res1.pulled = [] ∧ res1.conflicts = [] ∧
        (∀ dt, dt ∈ res1.unchanged ↔ dt ∈ (runLocalMap envSynced).map Prod.fst)) ∧
      (res2.pushed = [] ∧ res2.pulled = [] ∧ res2.conflicts = [] ∧
        (∀ dt, dt ∈ res2.unchanged ↔ dt ∈ (runLocalMap envSynced).map Prod.fst)) :=
  ⟨⟨rfl, by decide, by decide⟩,
   c6_idempotence_when_synced envSynced srvSynced rfl (by decide) (by decide)
     (by decide) (by decide)⟩

end AnantaSync
